import Mathlib

/-!
Verification of the MegaETH-Launchpad repository's core logic:
the admin-page Merkle allowlist builder, the allowlist publish
endpoint, and the client transaction reliability layer.

All definitions are shallow embeddings of the TypeScript source
(`src/frontend/pages/admin.tsx`, `src/frontend/pages/api/allowlists/upsert.ts`
and the client contract library).  Keccak-256 is implemented in full so
that the embedded hashing functions compute the same values as
`ethers.utils.keccak256`.
-/

namespace Launchpad

/-! ## Keccak-256 (the hash used by `ethers.utils.keccak256`)

Bytes are `Nat` values `< 256`; 64-bit lanes are `Nat` values `< 2^64`,
with wraparound made explicit by `% 2^64`. -/

def mask64 : Nat := 2 ^ 64 - 1

/-- Rotate a 64-bit lane left by `n` (for `0 ≤ n < 64`). -/
def rotl64 (x n : Nat) : Nat :=
  ((x <<< n) ||| (x >>> (64 - n))) &&& mask64

/-- Keccak round constants, rounds 0-11. -/
def keccakRCa : List Nat :=
  [0x0000000000000001, 0x0000000000008082, 0x800000000000808A, 0x8000000080008000,
   0x000000000000808B, 0x0000000080000001, 0x8000000080008081, 0x8000000000008009,
   0x000000000000008A, 0x0000000000000088, 0x0000000080008009, 0x000000008000000A]

/-- Keccak round constants, rounds 12-23. -/
def keccakRCb : List Nat :=
  [0x000000008000808B, 0x800000000000008B, 0x8000000000008089, 0x8000000000008003,
   0x8000000000008002, 0x8000000000000080, 0x000000000000800A, 0x800000008000000A,
   0x8000000080008081, 0x8000000000008080, 0x0000000080000001, 0x8000000080008008]

/-- Keccak round constants. -/
def keccakRC : List Nat :=
  keccakRCa ++ keccakRCb

/-- For each destination lane index (0..24, layout `x + 5*y`), the source
lane index and rotation amount of the combined ρ/π steps. -/
def rhoPiTable : List (Nat × Nat) :=
  [(0, 0), (6, 44), (12, 43), (18, 21), (24, 14),
   (3, 28), (9, 20), (10, 3), (16, 45), (22, 61),
   (1, 1), (7, 6), (13, 25), (19, 8), (20, 18),
   (4, 27), (5, 36), (11, 10), (17, 15), (23, 56),
   (2, 62), (8, 55), (14, 39), (15, 41), (21, 2)]

def thetaStep (A : List Nat) : List Nat :=
  let C := (List.range 5).map fun x =>
    A.getD x 0 ^^^ A.getD (x + 5) 0 ^^^ A.getD (x + 10) 0 ^^^
      A.getD (x + 15) 0 ^^^ A.getD (x + 20) 0
  let D := (List.range 5).map fun x =>
    C.getD ((x + 4) % 5) 0 ^^^ rotl64 (C.getD ((x + 1) % 5) 0) 1
  (List.range 25).map fun i => A.getD i 0 ^^^ D.getD (i % 5) 0

def rhoPiStep (A : List Nat) : List Nat :=
  rhoPiTable.map fun p => rotl64 (A.getD p.1 0) p.2

def chiStep (B : List Nat) : List Nat :=
  (List.range 25).map fun i =>
    let x := i % 5
    let y := i / 5
    B.getD i 0 ^^^ ((B.getD ((x + 1) % 5 + 5 * y) 0 ^^^ mask64) &&&
      B.getD ((x + 2) % 5 + 5 * y) 0)

def iotaStep (A : List Nat) (rc : Nat) : List Nat :=
  (A.getD 0 0 ^^^ rc) :: A.tail

/-- The Keccak-f[1600] permutation (24 rounds). -/
def keccakF (A : List Nat) : List Nat :=
  keccakRC.foldl (fun st rc => iotaStep (chiStep (rhoPiStep (thetaStep st))) rc) A

/-- Multi-rate padding `pad10*1` with domain byte `0x01` (original Keccak,
as used by Ethereum), rate 136 bytes. -/
def keccakPad (msg : List Nat) : List Nat :=
  let padlen := 136 - msg.length % 136
  if padlen = 1 then msg ++ [0x81]
  else msg ++ [0x01] ++ List.replicate (padlen - 2) 0 ++ [0x80]

def bytesToLane (bs : List Nat) : Nat :=
  bs.foldr (fun b acc => b + 256 * acc) 0

def absorbBlock (A block : List Nat) : List Nat :=
  let lanes := (List.range 17).map fun i => bytesToLane ((block.drop (8 * i)).take 8)
  keccakF ((List.range 25).map fun i => A.getD i 0 ^^^ lanes.getD i 0)

def absorbBlocks (A : List Nat) : List (List Nat) → List Nat
  | [] => A
  | b :: bs => absorbBlocks (absorbBlock A b) bs

def toBlocksAux : Nat → List Nat → List (List Nat)
  | 0, _ => []
  | fuel + 1, l => if l = [] then [] else l.take 136 :: toBlocksAux fuel (l.drop 136)

/-- Split a byte list into 136-byte rate blocks. -/
def toBlocks (l : List Nat) : List (List Nat) :=
  toBlocksAux l.length l

def laneToBytes (x : Nat) : List Nat :=
  (List.range 8).map fun k => (x >>> (8 * k)) &&& 0xff

/-- Keccak-256 over a byte list, returning the 32-byte digest. -/
def keccak256 (msg : List Nat) : List Nat :=
  let final := absorbBlocks (List.replicate 25 0) (toBlocks (keccakPad msg))
  ((final.take 4).map laneToBytes).flatten

/-! ## Hex strings -/

def hexDigitChar (n : Nat) : Char :=
  if n < 10 then Char.ofNat (48 + n) else Char.ofNat (87 + n)

def byteToHexChars (b : Nat) : List Char :=
  [hexDigitChar (b / 16), hexDigitChar (b % 16)]

/-- Lowercase `0x`-prefixed hex rendering of a byte list (as `ethers` returns). -/
def bytesToHex (bs : List Nat) : String :=
  ⟨'0' :: 'x' :: (bs.map byteToHexChars).flatten⟩

def hexCharVal (c : Char) : Nat :=
  if 48 ≤ c.toNat ∧ c.toNat ≤ 57 then c.toNat - 48
  else if 97 ≤ c.toNat ∧ c.toNat ≤ 102 then c.toNat - 87
  else if 65 ≤ c.toNat ∧ c.toNat ≤ 70 then c.toNat - 55
  else 0

def hexPairsToBytes : List Char → List Nat
  | a :: b :: rest => (16 * hexCharVal a + hexCharVal b) :: hexPairsToBytes rest
  | _ => []

/-- Parse a (possibly `0x`-prefixed) hex string into bytes. -/
def hexToBytes (s : String) : List Nat :=
  match s.data with
  | '0' :: 'x' :: rest => hexPairsToBytes rest
  | cs => hexPairsToBytes cs

/-- `keccak256` of hex-string data, rendered back as a lowercase hex string
(the composite `ethers.utils.keccak256` applied to hex input). -/
def keccak256Hex (s : String) : String :=
  bytesToHex (keccak256 (hexToBytes s))

/-! ## JavaScript string primitives

`jsLeString a b` is the JS string comparison `a <= b` (lexicographic on
code units; our strings are ASCII).  `String.toLower` coincides with JS
`toLowerCase` on ASCII data. -/

def charListLe : List Char → List Char → Bool
  | [], _ => true
  | _ :: _, [] => false
  | a :: as, b :: bs => if a < b then true else if b < a then false else charListLe as bs

def jsLeString (a b : String) : Bool :=
  charListLe a.data b.data

/-- JS `toLowerCase()` on the ASCII data this repository handles:
character-wise ASCII lowering (definitionally `String.toLower`, which is
`map Char.toLower`). -/
def jsToLower (s : String) : String :=
  ⟨s.data.map Char.toLower⟩

def insertSorted (le : α → α → Bool) (a : α) : List α → List α
  | [] => [a]
  | b :: l => if le a b then a :: b :: l else b :: insertSorted le a l

/-- JS `Array.prototype.sort` with a comparator, modelled as a stable
insertion sort (the sorted result is what every caller consumes). -/
def jsSortBy (le : α → α → Bool) : List α → List α
  | [] => []
  | a :: l => insertSorted le a (jsSortBy le l)

/-- JS object assignment `m[k] = v`: replace the binding if the key exists,
otherwise append it (JS objects keep first-insertion key order). -/
def jsRecordSet (m : List (String × α)) (k : String) (v : α) : List (String × α) :=
  if m.any fun p => p.1 = k then m.map fun p => if p.1 = k then (k, v) else p
  else m ++ [(k, v)]

/-- JS object read `m[k]`. -/
def jsRecordGet (m : List (String × α)) (k : String) : Option α :=
  (m.find? fun p => p.1 = k).map fun p => p.2

/-! ## The Merkle allowlist builder (`src/frontend/pages/admin.tsx`) -/

/-- `ethers.constants.HashZero`. -/
def HashZero : String :=
  "0x0000000000000000000000000000000000000000000000000000000000000000"

/-- `hashAllowlistLeaf`: `keccak256(solidityPack(["address"], [wallet]))`;
`solidityPack` of an address is its 20 bytes. -/
def hashAllowlistLeaf (wallet : String) : String :=
  bytesToHex (keccak256 (hexToBytes wallet))

/-- `hashMerklePair`: sort the two hex hashes by `toLowerCase()` string
comparison, concatenate their bytes, and keccak the result. -/
def hashMerklePair (a b : String) : String :=
  let p := if jsLeString (jsToLower a) (jsToLower b) then (a, b) else (b, a)
  bytesToHex (keccak256 (hexToBytes p.1 ++ hexToBytes p.2))

/-- `buildNextMerkleLayer`: hash adjacent pairs; a trailing odd node is
promoted unchanged. -/
def buildNextMerkleLayer : List String → List String
  | [] => []
  | [x] => [x]
  | x :: y :: rest => hashMerklePair x y :: buildNextMerkleLayer rest

/-- The per-wallet proof walk of `buildAllowlistMerkleData`
(`while (layer.length > 1) { ... }`), with explicit fuel; `layer.length`
fuel always suffices since each step at least halves the layer. -/
def merkleProofAux : Nat → List String → Nat → List String
  | 0, _, _ => []
  | fuel + 1, layer, index =>
    if 1 < layer.length then
      (let pairIndex := if index % 2 = 0 then index + 1 else index - 1
       if pairIndex < layer.length then [layer.getD pairIndex ""] else []) ++
        merkleProofAux fuel (buildNextMerkleLayer layer) (index / 2)
    else []

/-- The root loop of `buildAllowlistMerkleData`
(`while (rootLayer.length > 1) { rootLayer = buildNextMerkleLayer(rootLayer) }`),
with explicit fuel. -/
def collapseLayersAux : Nat → List String → List String
  | 0, l => l
  | fuel + 1, l => if 1 < l.length then collapseLayersAux fuel (buildNextMerkleLayer l) else l

/-- `buildAllowlistMerkleData`: returns `(root, proofs)` where `proofs` is
the JS record keyed by lowercased wallet. -/
def buildAllowlistMerkleData (wallets : List String) :
    String × List (String × List String) :=
  if wallets = [] then (HashZero, [])
  else
    let leaves := wallets.map hashAllowlistLeaf
    let proofs := wallets.enum.foldl
      (fun m p => jsRecordSet m (jsToLower p.2) (merkleProofAux leaves.length leaves p.1)) []
    let rootLayer := collapseLayersAux leaves.length leaves
    (rootLayer.getD 0 HashZero, proofs)

/-! ## `normalizeWalletList` and `ethers.utils.getAddress` -/

def isHexDigit (c : Char) : Bool :=
  (48 ≤ c.toNat && c.toNat ≤ 57) || (97 ≤ c.toNat && c.toNat ≤ 102) ||
    (65 ≤ c.toNat && c.toNat ≤ 70)

/-- `0x` followed by exactly 40 hex digits (the shape accepted by the
`isAddress` pre-validation in `admin.tsx` before `normalizeWalletList`). -/
def isHexAddress (s : String) : Bool :=
  match s.data with
  | c0 :: c1 :: rest => c0 = '0' && c1 = 'x' && rest.length = 40 && rest.all isHexDigit
  | _ => false

/-- `ethers.utils.getAddress` on a valid `0x`+40-hex input: lowercase the
hex digits, keccak the 40 ASCII characters, and uppercase digit `i`
whenever nibble `i` of the digest is `≥ 8` (EIP-55).  `getAddress`
additionally throws on checksum-invalid mixed-case input; the callers in
`admin.tsx` only pass pre-validated addresses, for which it returns this
checksummed form. -/
def getChecksumAddress (addr : String) : String :=
  let chars := (jsToLower addr).data.drop 2
  let hashed := keccak256 (chars.map Char.toNat)
  let cs := (List.range 40).map fun i =>
    let c := chars.getD i ' '
    let nib :=
      if i % 2 = 0 then hashed.getD (i / 2) 0 >>> 4 else hashed.getD (i / 2) 0 &&& 0xf
    if 8 ≤ nib then c.toUpper else c
  ⟨'0' :: 'x' :: cs⟩

/-- JS `Array.from(new Set(...))`: deduplicate keeping first occurrences. -/
def jsSetDedupAux (seen : List String) : List String → List String
  | [] => []
  | a :: l => if seen.contains a then jsSetDedupAux seen l
              else a :: jsSetDedupAux (a :: seen) l

def jsSetDedup (l : List String) : List String :=
  jsSetDedupAux [] l

/-- The comparator `(a, b) => a.toLowerCase().localeCompare(b.toLowerCase())`
as a `≤`-test; on ASCII alphanumeric strings `localeCompare` agrees with
code-unit order. -/
def walletSortLe (a b : String) : Bool :=
  jsLeString (jsToLower a) (jsToLower b)

/-- `normalizeWalletList`: checksum-normalize, deduplicate, and sort by
lowercased string order. -/
def normalizeWalletList (wallets : List String) : List String :=
  jsSortBy walletSortLe (jsSetDedup (wallets.map getChecksumAddress))

/-- `ethers.utils.getAddress`: accept `0x`-prefixed or bare 40-hex input,
checksum it, and reject (throw, modelled as `none`) mixed-case input whose
checksum does not match (EIP-55 validation).  The ICAP branch is not
modelled; every caller in this repository passes hex addresses. -/
def getAddress (s : String) : Option String :=
  let shaped : Option String :=
    match s.data with
    | '0' :: 'x' :: rest =>
      if rest.length = 40 && rest.all isHexDigit then some s else none
    | cs => if cs.length = 40 && cs.all isHexDigit then some ⟨'0' :: 'x' :: cs⟩ else none
  match shaped with
  | none => none
  | some a =>
    let result := getChecksumAddress a
    let mixed := (a.data.any fun c => 65 ≤ c.toNat && c.toNat ≤ 70) &&
      (a.data.any fun c => 97 ≤ c.toNat && c.toNat ≤ 102)
    if mixed && result ≠ a then none else some result

/-! ## Transaction reliability layer (`src/unnamed/part_002`, the client
contract library) -/

def GAS_LIMIT_FALLBACK : Nat := 280000
def GAS_LIMIT_BUFFER_NUMERATOR : Nat := 12
def GAS_LIMIT_BUFFER_DENOMINATOR : Nat := 10
def TX_SEND_MAX_ATTEMPTS : Nat := 3
def SUSPICIOUS_NONCE_GAP : Nat := 25
def TX_RETRY_BASE_DELAY_MS : Nat := 350
def READ_RETRY_DELAY_MS_DEFAULT : Nat := 250

def charListStartsWith : List Char → List Char → Bool
  | [], _ => true
  | _ :: _, [] => false
  | a :: as, b :: bs => a = b && charListStartsWith as bs

def charListContains (needle : List Char) : List Char → Bool
  | [] => needle.isEmpty
  | h :: t => charListStartsWith needle (h :: t) || charListContains needle t

/-- JS `haystack.includes(needle)`. -/
def jsIncludes (haystack needle : String) : Bool :=
  charListContains needle.data haystack.data

/-- An error value thrown by the RPC stack, restricted to the fields the
source inspects; each optional field is one of the lookup paths of
`extractRpcErrorMessage` (nested objects flattened to their paths). -/
structure RpcError where
  code : Option String := none
  reason : Option String := none
  shortMessage : Option String := none
  message : Option String := none
  errorReason : Option String := none
  errorMessage : Option String := none
  dataMessage : Option String := none
  dataOriginalErrorMessage : Option String := none
  errorDataMessage : Option String := none
  errorDataOriginalErrorMessage : Option String := none
  infoErrorMessage : Option String := none
deriving DecidableEq, Repr

/-- `new Error(msg)`: only the `message` field is populated. -/
def errorOfMessage (msg : String) : RpcError :=
  { message := some msg }

/-- `extractRpcErrorMessage`: join the present, non-empty candidate parts
with `" | "` (JS `filter(Boolean)` drops empty strings). -/
def extractRpcErrorMessage (e : RpcError) : String :=
  String.intercalate " | "
    (([e.reason, e.shortMessage, e.message, e.errorReason, e.errorMessage,
       e.dataMessage, e.dataOriginalErrorMessage, e.errorDataMessage,
       e.errorDataOriginalErrorMessage, e.infoErrorMessage].filterMap id).filter
      fun s => s ≠ "")

/-- JS `String(error?.message || error?.reason || "")`: first present,
non-empty candidate. -/
def jsFirstTruthy : List (Option String) → String
  | [] => ""
  | some s :: rest => if s = "" then jsFirstTruthy rest else s
  | none :: rest => jsFirstTruthy rest

/-- `isRetryableRpcError` (read path). -/
def isRetryableRpcError (e : RpcError) : Bool :=
  let message := jsToLower (jsFirstTruthy [e.message, e.reason])
  let code := jsToLower (jsFirstTruthy [e.code])
  jsIncludes code "timeout" || jsIncludes code "network" || jsIncludes code "server" ||
  jsIncludes message "429" || jsIncludes message "rate limit" ||
  jsIncludes message "timeout" || jsIncludes message "gateway timeout" ||
  jsIncludes message "temporarily unavailable" || jsIncludes message "missing response"

/-- `isLikelyRevertReason`. -/
def isLikelyRevertReason (message : String) : Bool :=
  let normalized := jsToLower message
  jsIncludes normalized "execution reverted" || jsIncludes normalized "revert" ||
  jsIncludes normalized "owner" || jsIncludes normalized "metadata frozen" ||
  jsIncludes normalized "already frozen" || jsIncludes normalized "invalid" ||
  jsIncludes normalized "not allowlisted" || jsIncludes normalized "insufficient funds"

/-- `isRetryableWriteTxError` (write path). -/
def isRetryableWriteTxError (e : RpcError) : Bool :=
  let message := jsToLower (extractRpcErrorMessage e)
  let code := jsToLower (jsFirstTruthy [e.code])
  jsIncludes code "timeout" || jsIncludes code "network" || jsIncludes code "server" ||
  jsIncludes message "timeout" || jsIncludes message "temporarily unavailable" ||
  jsIncludes message "missing response" ||
  jsIncludes message "replacement transaction underpriced" ||
  jsIncludes message "nonce too low" || jsIncludes message "nonce gap too high" ||
  jsIncludes message "already known" ||
  jsIncludes message "maxfeepergas cannot be less than maxpriorityfeepergas"

/-- `provider.getFeeData()` result.  Fields are `BigNumber`-or-null in the
source; a present `BigNumber` is truthy even when its value is zero, so
presence (`Option`) is distinct from the numeric value. -/
structure FeeData where
  maxFeePerGas : Option Nat := none
  maxPriorityFeePerGas : Option Nat := none
  gasPrice : Option Nat := none
deriving DecidableEq, Repr

/-- The per-call oracles consumed by `buildTxOverrides`: gas estimation
(`none` = no estimate method on the contract), the `latest`/`pending`
transaction counts (`none` = provider/signer missing or the reads threw,
in which case the nonce override is skipped), and the fee data (`none` =
`getFeeData` absent or threw). -/
structure TxProviderEnv where
  estimateGas : Option (Except RpcError Nat) := none
  nonceCounts : Option (Nat × Nat) := none
  feeData : Option FeeData := none
deriving Repr

structure TxOverrides where
  value : Option Int := none
  gasLimit : Nat := 0
  nonce : Option Nat := none
  maxFeePerGas : Option Nat := none
  maxPriorityFeePerGas : Option Nat := none
  gasPrice : Option Nat := none
deriving DecidableEq, Repr

def oneGwei : Nat := 1000000000

/-- The EIP-1559 branch of `buildTxOverrides`' fee resolution: priority
fee falls back to `gasPrice` then to a 1 gwei floor, and `maxFeePerGas`
is bumped to twice the priority fee when it does not exceed it. -/
def feeBranch (feeData : FeeData) (base : TxOverrides) : TxOverrides :=
  let maxPriorityFeePerGas := feeData.maxPriorityFeePerGas.getD 0
  let maxFeePerGas := feeData.maxFeePerGas.getD 0
  let maxPriorityFeePerGas :=
    if maxPriorityFeePerGas = 0 && feeData.gasPrice.isSome then feeData.gasPrice.getD 0
    else maxPriorityFeePerGas
  let maxPriorityFeePerGas :=
    if maxPriorityFeePerGas = 0 then oneGwei else maxPriorityFeePerGas
  let maxFeePerGas :=
    if maxFeePerGas = 0 && feeData.gasPrice.isSome then feeData.gasPrice.getD 0
    else maxFeePerGas
  let maxFeePerGas :=
    if maxFeePerGas ≤ maxPriorityFeePerGas then maxPriorityFeePerGas * 2
    else maxFeePerGas
  { base with maxFeePerGas := some maxFeePerGas,
              maxPriorityFeePerGas := some maxPriorityFeePerGas }

/-- `buildTxOverrides`.  Returns `Except.error msg` for the
`throw new Error(estimateMessage || "Transaction simulation failed")`
branch taken when gas estimation fails with a revert-like message. -/
def buildTxOverrides (provider : TxProviderEnv) (fallbackGasLimit : Nat)
    (value : Option Int) (forceLegacyGasPrice : Bool) : Except String TxOverrides :=
  let gasStep : Except String Nat :=
    match provider.estimateGas with
    | none => .ok fallbackGasLimit
    | some (.ok estimated) =>
      .ok (estimated * GAS_LIMIT_BUFFER_NUMERATOR / GAS_LIMIT_BUFFER_DENOMINATOR)
    | some (.error estimateError) =>
      let estimateMessage := extractRpcErrorMessage estimateError
      if isLikelyRevertReason estimateMessage then
        .error (if estimateMessage = "" then "Transaction simulation failed" else estimateMessage)
      else .ok fallbackGasLimit
  match gasStep with
  | .error m => .error m
  | .ok gasLimit =>
    let nonce : Option Nat :=
      match provider.nonceCounts with
      | none => none
      | some (latestNonce, pendingNonce) =>
        let gap := pendingNonce - latestNonce
        some (if gap > SUSPICIOUS_NONCE_GAP then latestNonce else pendingNonce)
    let base : TxOverrides := { value := value, gasLimit := gasLimit, nonce := nonce }
    match provider.feeData with
    | none => .ok base
    | some feeData =>
      if !forceLegacyGasPrice &&
          (feeData.maxFeePerGas.isSome || feeData.maxPriorityFeePerGas.isSome) then
        .ok (feeBranch feeData base)
      else
        match feeData.gasPrice with
        | some gasPrice => .ok { base with gasPrice := some gasPrice }
        | none => .ok base

/-- One attempt's environment for `sendContractTxWithBufferedGas`: the
provider oracles seen by `buildTxOverrides` on that attempt and the
outcome of `method(...args, txOverrides)`. -/
structure SendAttemptEnv where
  provider : TxProviderEnv
  sendResult : Except RpcError Unit
deriving Repr

instance {ε α : Type} [DecidableEq ε] [DecidableEq α] : DecidableEq (Except ε α)
  | .ok a, .ok b =>
    if h : a = b then .isTrue (by rw [h]) else .isFalse (fun hh => h (by injection hh))
  | .ok _, .error _ => .isFalse (fun hh => by injection hh)
  | .error _, .ok _ => .isFalse (fun hh => by injection hh)
  | .error a, .error b =>
    if h : a = b then .isTrue (by rw [h]) else .isFalse (fun hh => h (by injection hh))

structure SendOutcome where
  result : Except RpcError Unit
  attemptsUsed : Nat
  delays : List Nat
  /-- The overrides passed to the contract method on each attempt that
  reached the send (ordered by attempt). -/
  sent : List TxOverrides
deriving DecidableEq, Repr

/-- The retry loop body of `sendContractTxWithBufferedGas`.  `fuel` only
bounds the recursion; starting from attempt 1 with `fuel = maxAttempts`
it never reaches 0 because the loop exits at `attempt >= maxAttempts`. -/
def sendContractTxAux (maxAttempts fallbackGasLimit : Nat) (value : Option Int)
    (attemptEnv : Nat → SendAttemptEnv) :
    Bool → Nat → Nat → SendOutcome
  | _, _, 0 => ⟨.error (errorOfMessage ""), 0, [], []⟩
  | forceLegacyGasOnRetry, attempt, fuel + 1 =>
    let env := attemptEnv attempt
    let failWith (sentHere : List TxOverrides) (e : RpcError) : SendOutcome :=
      let message := jsToLower (extractRpcErrorMessage e)
      let forceLegacy := forceLegacyGasOnRetry ||
        jsIncludes message "maxfeepergas cannot be less than maxpriorityfeepergas"
      if attempt ≥ maxAttempts || !isRetryableWriteTxError e then
        ⟨.error e, attempt, [], sentHere⟩
      else
        let r := sendContractTxAux maxAttempts fallbackGasLimit value attemptEnv
          forceLegacy (attempt + 1) fuel
        ⟨r.result, r.attemptsUsed, TX_RETRY_BASE_DELAY_MS * attempt :: r.delays,
          sentHere ++ r.sent⟩
    match buildTxOverrides env.provider fallbackGasLimit value forceLegacyGasOnRetry with
    | .error msg => failWith [] (errorOfMessage msg)
    | .ok txOverrides =>
      match env.sendResult with
      | .ok _ => ⟨.ok (), attempt, [], [txOverrides]⟩
      | .error e => failWith [txOverrides] e

/-- `sendContractTxWithBufferedGas` (the per-attempt transaction work is
oracle-supplied; `maxAttempts` gets the source's `Math.max(1, ...)`). -/
def sendContractTxWithBufferedGas (maxAttempts fallbackGasLimit : Nat)
    (value : Option Int) (attemptEnv : Nat → SendAttemptEnv) : SendOutcome :=
  sendContractTxAux (max 1 maxAttempts) fallbackGasLimit value attemptEnv false 1
    (max 1 maxAttempts)

structure ReadRetryOutcome (α : Type) where
  result : Except RpcError α
  attemptsUsed : Nat
  delays : List Nat

/-- Loop body of `withReadRetry`; as for the send loop, the fuel never
reaches 0 from the wrapper. -/
def withReadRetryAux (attempts delayMs : Nat) (task : Nat → Except RpcError α) :
    Nat → Nat → ReadRetryOutcome α
  | _, 0 => ⟨.error (errorOfMessage ""), 0, []⟩
  | attempt, fuel + 1 =>
    match task attempt with
    | .ok a => ⟨.ok a, attempt, []⟩
    | .error e =>
      if attempt ≥ attempts || !isRetryableRpcError e then ⟨.error e, attempt, []⟩
      else
        let r := withReadRetryAux attempts delayMs task (attempt + 1) fuel
        ⟨r.result, r.attemptsUsed, delayMs * attempt :: r.delays⟩

/-- `withReadRetry`, with the configured attempt count (source applies
`Math.max(1, ...)` to it) and delay; `task n` is the outcome of the n-th
execution of the task (1-indexed).  A recorded delay of `0` corresponds to
the skipped `setTimeout` (`waitMs > 0` guard). -/
def withReadRetry (attempts delayMs : Nat) (task : Nat → Except RpcError α) :
    ReadRetryOutcome α :=
  withReadRetryAux (max 1 attempts) delayMs task 1 (max 1 attempts)

/-! ## The allowlist publish endpoint
(`src/frontend/pages/api/allowlists/upsert.ts`) -/

def MAX_SIGNATURE_AGE_MS : Int := 5 * 60 * 1000

/-- `isBytes32`: `/^0x[a-fA-F0-9]{64}$/`. -/
def isBytes32 (value : String) : Bool :=
  match value.data with
  | '0' :: 'x' :: rest => rest.length = 64 && rest.all isHexDigit
  | _ => false

/-- `isAddress` in `upsert.ts`: `/^0x[a-fA-F0-9]{40}$/` (same shape as
`isHexAddress`). -/
def isAddress (value : String) : Bool :=
  isHexAddress value

/-- `isLikelySignature`: `/^0x[a-fA-F0-9]{130,132}$/`. -/
def isLikelySignature (value : String) : Bool :=
  match value.data with
  | '0' :: 'x' :: rest =>
    (130 ≤ rest.length && rest.length ≤ 132) && rest.all isHexDigit
  | _ => false

/-- `isProofArray` (depth bound is `MAX_PROOF_DEPTH`). -/
def isProofArray (maxProofDepth : Nat) (value : List String) : Bool :=
  value.length ≤ maxProofDepth && value.all isBytes32

def jsonQuote (s : String) : String :=
  "\"" ++ s ++ "\""

/-- `stableStringify` at the type it is applied to
(`Record<string, string[]>`): entries sorted by key (on the ASCII keys
used here `localeCompare` agrees with code-unit order), arrays in order,
strings JSON-quoted (the keys and hashes here need no escaping). -/
def stableStringifyProofs (proofs : List (String × List String)) : String :=
  let entries := jsSortBy (fun a b => jsLeString a.1 b.1) proofs
  "\x7b" ++ String.intercalate ","
    (entries.map fun p =>
      jsonQuote p.1 ++ ":[" ++ String.intercalate "," (p.2.map jsonQuote) ++ "]") ++ "\x7d"

/-- `buildProofsHash`: keccak over the UTF-8 bytes (here: ASCII codes) of
the stable stringification. -/
def buildProofsHash (proofs : List (String × List String)) : String :=
  bytesToHex (keccak256 ((stableStringifyProofs proofs).data.map Char.toNat))

/-- `buildAllowlistPublishMessage`. -/
def buildAllowlistPublishMessage (contractAddress : String) (phaseId : Int)
    (root : String) (total : Int) (proofsHash : String) (timestamp : Int) : String :=
  String.intercalate "\n"
    ["MegaETH Allowlist Publish",
     "contract:" ++ jsToLower contractAddress,
     "phaseId:" ++ toString phaseId,
     "root:" ++ jsToLower root,
     "total:" ++ toString total,
     "proofsHash:" ++ jsToLower proofsHash,
     "timestamp:" ++ toString timestamp]

/-- The request as the handler sees it after Next.js parsing.  Transport
facts decided by collaborator code the claims do not touch (HTTP method,
`isAllowedOrigin`, `isRateLimited`, the Content-Type check) enter as the
booleans they produce.  Body fields carry the result of the source's
`Number(...)` coercions: `none` models `NaN`/non-numeric input. -/
structure UpsertRequest where
  methodPost : Bool := true
  originAllowed : Bool := true
  rateLimited : Bool := false
  contentTypeJson : Bool := true
  phaseId : Option Int := none
  root : String := ""
  /-- `none` models a body whose `proofs` is missing, not an object, or an
  array. -/
  proofs : Option (List (String × List String)) := none
  total : Option Int := some 0
  mode : String := "address-only-merkle"
  generatedAt : String := ""
  signer : String := ""
  proofsHash : String := ""
  timestamp : Option Int := none
  signature : String := ""

/-- Server environment and collaborator oracles for one handler run:
clock, configuration, the chain read (`getOwnerFromChain`, which already
checksums via `getAddress`), signature recovery
(`ethers.utils.verifyMessage`, `none` = throws), and storage outcomes. -/
structure UpsertEnv where
  contractAddress : String
  now : Int
  maxProofWallets : Nat := 25000
  maxProofDepth : Nat := 40
  verifyMessage : String → String → Option String
  owner : Except String String
  fileExisting : Option String := none
  fileWriteOk : Bool := true
  kvConfigured : Bool := false
  kvWriteOk : Bool := false

structure UpsertResult where
  status : Nat
  ok : Bool
  error : Option String
  path : Option String
  /-- `fs.writeFile` actually performed and succeeded. -/
  wroteFile : Bool
  /-- KV `SET` performed and succeeded. -/
  wroteKv : Bool
  usedSignatures : List (String × Int)

/-- JSON.stringify of the stored payload with 2-space indentation
(key order: insertion order of the object literal). -/
def serializePayload (phaseId : Int) (root : String) (total : Int)
    (generatedAt mode : String) (proofs : List (String × List String)) : String :=
  let proofLines (v : List String) : String :=
    if v = [] then "[]"
    else "[\n" ++ String.intercalate ",\n" (v.map fun h => "        " ++ jsonQuote h) ++
      "\n      ]"
  let proofsBlock :=
    if proofs = [] then "\x7b\x7d"
    else "\x7b\n" ++ String.intercalate ",\n"
      (proofs.map fun p => "      " ++ jsonQuote p.1 ++ ": " ++ proofLines p.2) ++
      "\n    \x7d"
  "\x7b\n" ++
  "  \"phaseId\": " ++ toString phaseId ++ ",\n" ++
  "  \"root\": " ++ jsonQuote root ++ ",\n" ++
  "  \"total\": " ++ toString total ++ ",\n" ++
  "  \"generatedAt\": " ++ jsonQuote generatedAt ++ ",\n" ++
  "  \"mode\": " ++ jsonQuote mode ++ ",\n" ++
  "  \"proofs\": " ++ proofsBlock ++ "\n" ++
  "\x7d"

def errResult (status : Nat) (msg : String) (used : List (String × Int)) : UpsertResult :=
  ⟨status, false, some msg, none, false, false, used⟩

/-- `Number.isFinite(total) && total > 0 ? Math.floor(total) : proofEntries.length`. -/
def normalizedTotalOf (total : Option Int) (entriesLen : Nat) : Int :=
  match total with
  | some t => if t > 0 then t else entriesLen
  | none => entriesLen

/-- Validate and lowercase the proof entries (the
`for (const [wallet, proof] of proofEntries)` loop); `none` signals the
400 "Invalid proofs entry" response. -/
def normalizeProofEntries (maxProofDepth : Nat)
    (entries : List (String × List String)) : Option (List (String × List String)) :=
  if entries.all fun p => isAddress p.1 && isProofArray maxProofDepth p.2 then
    some (entries.foldl (fun m p => jsRecordSet m (jsToLower p.1) p.2) [])
  else none

/-- The storage tail of the handler (file write with identical-content
dedup, optional KV write, `usedSignatures.set`, and the success/failure
responses). -/
def upsertStore (phaseId : Int) (root : String) (normalizedTotal : Int)
    (generatedAt mode : String) (normalizedProofs : List (String × List String))
    (env : UpsertEnv) (signatureKey : String)
    (cleaned : List (String × Int)) : UpsertResult :=
  let serialized := serializePayload phaseId root
    normalizedTotal generatedAt mode normalizedProofs
  let fileMatches :=
    match env.fileExisting with
    | some existing => existing.trim = serialized.trim
    | none => false
  let wroteFile := !fileMatches && env.fileWriteOk
  let savedToFile := fileMatches || env.fileWriteOk
  let wroteKv := env.kvConfigured && env.kvWriteOk
  let savedToKv := wroteKv
  if !savedToFile && !savedToKv then
    errResult 500 "Failed to write proof file on server" cleaned
  else
    let used2 := jsRecordSet cleaned signatureKey env.now
    if savedToKv then
      ⟨200, true, none,
        some ("/api/allowlists/proof?phaseId=" ++ toString phaseId),
        wroteFile, wroteKv, used2⟩
    else
      ⟨200, true, none,
        some ("/allowlists/phase-" ++ toString phaseId ++ ".json"),
        wroteFile, wroteKv, used2⟩

/-!
Stages of the upsert handler.  The handler is one long function in the
source; it is embedded as a chain of stage functions (one per group of
checks) so that each stage stays small.  Control flow and responses are
unchanged.
-/

/-- Stage: `cleanupUsedSignatures`, replay rejection, owner fetch and
owner match. -/
def upsertReplayOwner (req : UpsertRequest) (env : UpsertEnv) (used : List (String × Int))
    (phaseId : Int) (entriesLen : Nat)
    (normalizedProofs : List (String × List String)) (recovered : String) : UpsertResult :=
  let cleaned := used.filter fun kv => !(env.now - kv.2 > MAX_SIGNATURE_AGE_MS)
  let signatureKey := jsToLower req.signature
  if cleaned.any fun kv => kv.1 = signatureKey then
    errResult 409 "Replay detected" cleaned
  else
    match env.owner with
    | .error m => errResult 500 m cleaned
    | .ok ownerAddress =>
      if recovered ≠ ownerAddress then
        errResult 403 "Only contract owner can publish proof" cleaned
      else
        upsertStore phaseId req.root (normalizedTotalOf req.total entriesLen)
          req.generatedAt req.mode normalizedProofs env signatureKey cleaned

/-- Stage: proofs-hash comparison, signature recovery, signer match. -/
def upsertVerify (req : UpsertRequest) (env : UpsertEnv) (used : List (String × Int))
    (phaseId : Int) (entriesLen : Nat)
    (normalizedProofs : List (String × List String)) (timestamp : Int) : UpsertResult :=
  let computedProofsHash := buildProofsHash normalizedProofs
  if jsToLower computedProofsHash ≠ jsToLower req.proofsHash then
    errResult 401 "Proof hash mismatch" used
  else
    let message := buildAllowlistPublishMessage env.contractAddress
      phaseId req.root (normalizedTotalOf req.total entriesLen) computedProofsHash timestamp
    match (env.verifyMessage message req.signature).bind getAddress with
    | none => errResult 401 "Invalid signature" used
    | some recovered =>
      match getAddress req.signer with
      | none =>
        -- `ethers.utils.getAddress(signer)` throws outside any try/catch
        -- (bad-checksum mixed case); the framework answers 500.
        errResult 500 "Internal server error" used
      | some signerAddress =>
        if recovered ≠ signerAddress then
          errResult 403 "Signature signer mismatch" used
        else upsertReplayOwner req env used phaseId entriesLen normalizedProofs recovered

/-- Stage: timestamp freshness and total-count validation. -/
def upsertFreshTotal (req : UpsertRequest) (env : UpsertEnv) (used : List (String × Int))
    (phaseId : Int) (entriesLen : Nat)
    (normalizedProofs : List (String × List String)) (timestamp : Int) : UpsertResult :=
  if (env.now - timestamp).natAbs > MAX_SIGNATURE_AGE_MS.natAbs then
    errResult 401 "Expired signature" used
  else if normalizedTotalOf req.total entriesLen < (entriesLen : Int) then
    errResult 400 "Invalid total count for proofs payload." used
  else upsertVerify req env used phaseId entriesLen normalizedProofs timestamp

/-- Stage: signer / proofsHash / timestamp / signature field validation. -/
def upsertAuthFields (req : UpsertRequest) (env : UpsertEnv) (used : List (String × Int))
    (phaseId : Int) (entriesLen : Nat)
    (normalizedProofs : List (String × List String)) : UpsertResult :=
  if !isAddress req.signer then errResult 401 "Missing signer" used
  else if !isBytes32 req.proofsHash then errResult 401 "Missing proofs hash" used
  else
    match req.timestamp with
    | none => errResult 401 "Missing timestamp" used
    | some timestamp =>
      if !isLikelySignature req.signature then errResult 401 "Missing signature" used
      else upsertFreshTotal req env used phaseId entriesLen normalizedProofs timestamp

/-- Stage: proofs payload size bound and per-entry validation. -/
def upsertProofs (req : UpsertRequest) (env : UpsertEnv) (used : List (String × Int))
    (phaseId : Int) (proofEntries : List (String × List String)) : UpsertResult :=
  if proofEntries.length > env.maxProofWallets then
    errResult 413 "Proof payload too large." used
  else
    match normalizeProofEntries env.maxProofDepth proofEntries with
    | none => errResult 400 "Invalid proofs entry" used
    | some normalizedProofs =>
      upsertAuthFields req env used phaseId proofEntries.length normalizedProofs

/-- Stage: phaseId / root / proofs body validation. -/
def upsertParse (req : UpsertRequest) (env : UpsertEnv)
    (used : List (String × Int)) : UpsertResult :=
  match req.phaseId with
  | none => errResult 400 "Invalid phaseId" used
  | some phaseId =>
    if phaseId < 0 then errResult 400 "Invalid phaseId" used
    else if !isBytes32 req.root then errResult 400 "Invalid merkle root" used
    else
      match req.proofs with
      | none => errResult 400 "Invalid proofs payload" used
      | some proofEntries => upsertProofs req env used phaseId proofEntries

/-- The upsert handler, from the top of the exported function through the
response, over a parsed request, the environment oracles, and the current
`usedSignatures` map: transport-level checks, then the staged body. -/
def upsertHandler (req : UpsertRequest) (env : UpsertEnv)
    (used : List (String × Int)) : UpsertResult :=
  if !req.methodPost then errResult 405 "Method not allowed" used
  else if !isAddress env.contractAddress then
    errResult 500 "Server contract address is not configured." used
  else if !req.originAllowed then errResult 403 "Origin not allowed." used
  else if req.rateLimited then errResult 429 "Too many requests. Try again later." used
  else if !req.contentTypeJson then
    errResult 415 "Content-Type must be application/json." used
  else upsertParse req env used

/-- A rejecting handler response: non-OK status and no storage write. -/
def upsertRejected (r : UpsertResult) : Prop :=
  r.ok = false ∧ r.status ≠ 200 ∧ r.wroteFile = false ∧ r.wroteKv = false

/-- C3's first condition: the request timestamp is within 5 minutes of
server time. -/
def upsertFresh (req : UpsertRequest) (env : UpsertEnv) : Prop :=
  ∃ t, req.timestamp = some t ∧ (env.now - t).natAbs ≤ MAX_SIGNATURE_AGE_MS.natAbs

/-- C3's second condition: the request's `proofsHash` equals the hash
recomputed from the normalized proofs map (case-insensitively, as the
handler compares). -/
def upsertHashOk (req : UpsertRequest) (env : UpsertEnv) : Prop :=
  ∃ entries np, req.proofs = some entries ∧
    normalizeProofEntries env.maxProofDepth entries = some np ∧
    jsToLower (buildProofsHash np) = jsToLower req.proofsHash

/-- C3's third condition: the signature over the canonical publish message
recovers to the contract's current `owner()` address. -/
def upsertRecoveredOwner (req : UpsertRequest) (env : UpsertEnv) : Prop :=
  ∃ p t entries np o,
    req.phaseId = some p ∧ req.timestamp = some t ∧ req.proofs = some entries ∧
    normalizeProofEntries env.maxProofDepth entries = some np ∧
    (env.verifyMessage
      (buildAllowlistPublishMessage env.contractAddress p req.root
        (normalizedTotalOf req.total entries.length) (buildProofsHash np) t)
      req.signature).bind getAddress = some o ∧
    env.owner = Except.ok o

/-- All handler checks strictly before the replay check, as one decidable
test (mirrors the handler's prefix; used to state C10's hypothesis that a
second request is not rejected for an unrelated earlier reason). -/
def passesPreReplay (req : UpsertRequest) (env : UpsertEnv) : Bool :=
  req.methodPost && isAddress env.contractAddress && req.originAllowed &&
  !req.rateLimited && req.contentTypeJson &&
  match req.phaseId, req.proofs, req.timestamp with
  | some phaseId, some proofEntries, some timestamp =>
    decide (0 ≤ phaseId) && isBytes32 req.root &&
    decide (proofEntries.length ≤ env.maxProofWallets) &&
    (match normalizeProofEntries env.maxProofDepth proofEntries with
     | none => false
     | some normalizedProofs =>
       isAddress req.signer && isBytes32 req.proofsHash &&
       isLikelySignature req.signature &&
       decide ((env.now - timestamp).natAbs ≤ MAX_SIGNATURE_AGE_MS.natAbs) &&
       decide (¬ normalizedTotalOf req.total proofEntries.length <
         (proofEntries.length : Int)) &&
       decide (jsToLower (buildProofsHash normalizedProofs) = jsToLower req.proofsHash) &&
       (match (env.verifyMessage
           (buildAllowlistPublishMessage env.contractAddress phaseId req.root
             (normalizedTotalOf req.total proofEntries.length)
             (buildProofsHash normalizedProofs) timestamp)
           req.signature).bind getAddress, getAddress req.signer with
        | some recovered, some signerAddress => decide (recovered = signerAddress)
        | _, _ => false))
  | _, _, _ => false

/-- The revert-like keyword pattern exactly as the specification words it
("revert", "owner", "frozen", "invalid", "insufficient funds",
"allowlisted"), for comparison against the source's
`isLikelyRevertReason`. -/
def specRevertLikePattern (message : String) : Bool :=
  let n := jsToLower message
  jsIncludes n "revert" || jsIncludes n "owner" || jsIncludes n "frozen" ||
  jsIncludes n "invalid" || jsIncludes n "insufficient funds" ||
  jsIncludes n "allowlisted"

/-- A stale request used to exhibit the rejection direction of the publish
authentication theorem at a concrete input. -/
def c3Req : UpsertRequest :=
  { timestamp := some 0 }

def c3Env : UpsertEnv :=
  { contractAddress := "", now := 1000000000,
    verifyMessage := fun _ _ => none, owner := Except.error "owner read failed" }

def c10Addr : String :=
  "0x1111111111111111111111111111111111111111"

def c10Req : UpsertRequest :=
  { phaseId := some 1,
    root := "0x2222222222222222222222222222222222222222222222222222222222222222",
    proofs := some [],
    total := some 0,
    generatedAt := "2026-01-01T00:00:00.000Z",
    signer := c10Addr,
    proofsHash := "0xb48d38f93eaa084033fc5970bf96e559c33c4cdc07d889ab00b4d63f9590739d",
    timestamp := some 1000,
    signature := ⟨'0' :: 'x' :: List.replicate 130 'a'⟩ }

def c10Env : UpsertEnv :=
  { contractAddress := c10Addr, now := 1000,
    verifyMessage := fun _ _ => some c10Addr,
    owner := Except.ok c10Addr }


/-! # Theorems -/

set_option maxRecDepth 10000 in
/-- Keccak-256 of the empty input is the well-known Ethereum constant,
validating the embedded hash implementation. -/
theorem keccak256_nil :
    bytesToHex (keccak256 []) =
      "0xc5d2460186f7233c927e7db2dcc703c0e500b653ca82273b7bfad8045d85a470" := by
  decide


/-- Helper: the fee pair emitted by the EIP-1559 branch — positive
priority fee with the gasPrice-then-1-gwei fallback, never above the max
fee. -/
theorem feeBranch_spec (fd : FeeData) (base : TxOverrides) :
    ∃ p f, (feeBranch fd base).maxPriorityFeePerGas = some p ∧
      (feeBranch fd base).maxFeePerGas = some f ∧ p ≤ f ∧
      (fd.maxPriorityFeePerGas.getD 0 = 0 →
        p = if fd.gasPrice.getD 0 ≠ 0 then fd.gasPrice.getD 0 else oneGwei) := by
  obtain ⟨mf, mp, gp⟩ := fd
  refine ⟨_, _, rfl, rfl, ?_, ?_⟩
  · rcases gp with _ | g <;> rcases mp with _ | p <;> rcases mf with _ | f <;>
      simp [feeBranch] <;> (try split_ifs) <;> omega
  · intro hz
    rcases gp with _ | g <;> rcases mp with _ | p <;> rcases mf with _ | f <;>
      simp_all [feeBranch] <;> (try split_ifs) <;> omega

/-- C4: when gas estimation succeeds with estimate `E`, `buildTxOverrides`
succeeds and the override's gas limit is exactly `⌊E * 12 / 10⌋`. -/
theorem C4_gas_buffer (provider : TxProviderEnv) (fallbackGasLimit : Nat)
    (value : Option Int) (forceLegacy : Bool) (E : Nat)
    (h : provider.estimateGas = some (Except.ok E)) :
    ∃ o, buildTxOverrides provider fallbackGasLimit value forceLegacy = Except.ok o ∧
      o.gasLimit = E * GAS_LIMIT_BUFFER_NUMERATOR / GAS_LIMIT_BUFFER_DENOMINATOR := by
  unfold buildTxOverrides
  rw [h]
  cases hfd : provider.feeData with
  | none => exact ⟨_, rfl, rfl⟩
  | some fd =>
    by_cases h1559 : !forceLegacy &&
        (fd.maxFeePerGas.isSome || fd.maxPriorityFeePerGas.isSome)
    · simp only [h1559]
      exact ⟨_, rfl, rfl⟩
    · simp only [h1559]
      cases fd.gasPrice with
      | none => exact ⟨_, rfl, rfl⟩
      | some g => exact ⟨_, rfl, rfl⟩

/-- C4 witness: an estimate of 100,000 yields a submitted gas limit of
exactly 120,000. -/
theorem C4_gas_buffer_witness :
    ∃ o, buildTxOverrides ⟨some (Except.ok 100000), none, none⟩ 280000 none false =
      Except.ok o ∧ o.gasLimit = 120000 := by
  obtain ⟨o, h1, h2⟩ :=
    C4_gas_buffer ⟨some (Except.ok 100000), none, none⟩ 280000 none false 100000 rfl
  exact ⟨o, h1, by rw [h2]; rfl⟩

/-- C5: when both transaction counts are read, the nonce override is the
pending count for a gap of at most `SUSPICIOUS_NONCE_GAP` (25) and the
latest count when the gap exceeds it. -/
theorem C5_nonce_gap (provider : TxProviderEnv) (fallbackGasLimit : Nat)
    (value : Option Int) (forceLegacy : Bool) (latestNonce pendingNonce : Nat)
    (o : TxOverrides)
    (hn : provider.nonceCounts = some (latestNonce, pendingNonce))
    (ho : buildTxOverrides provider fallbackGasLimit value forceLegacy = Except.ok o) :
    o.nonce = some (if pendingNonce - latestNonce ≤ SUSPICIOUS_NONCE_GAP
      then pendingNonce else latestNonce) := by
  unfold buildTxOverrides at ho
  rw [hn] at ho
  have key : ∀ o' : TxOverrides,
      o'.nonce = some (if pendingNonce - latestNonce > SUSPICIOUS_NONCE_GAP
        then latestNonce else pendingNonce) → o' = o → o.nonce =
        some (if pendingNonce - latestNonce ≤ SUSPICIOUS_NONCE_GAP
          then pendingNonce else latestNonce) := by
    intro o' h1 h2
    subst h2
    rw [h1]
    by_cases hgap : pendingNonce - latestNonce ≤ SUSPICIOUS_NONCE_GAP
    · simp [hgap, Nat.not_lt.mpr hgap]
    · simp [hgap, Nat.lt_of_not_le hgap]
  cases hstep : provider.estimateGas with
  | none =>
    rw [hstep] at ho
    cases hfd : provider.feeData with
    | none =>
      rw [hfd] at ho
      exact key _ rfl (Except.ok.inj ho)
    | some fd =>
      rw [hfd] at ho
      by_cases h1559 : !forceLegacy &&
          (fd.maxFeePerGas.isSome || fd.maxPriorityFeePerGas.isSome)
      · simp only [h1559] at ho
        exact key _ rfl (Except.ok.inj ho)
      · simp only [h1559] at ho
        cases hgp : fd.gasPrice with
        | none => rw [hgp] at ho; exact key _ rfl (Except.ok.inj ho)
        | some g => rw [hgp] at ho; exact key _ rfl (Except.ok.inj ho)
  | some r =>
    cases r with
    | ok E =>
      rw [hstep] at ho
      cases hfd : provider.feeData with
      | none =>
        rw [hfd] at ho
        exact key _ rfl (Except.ok.inj ho)
      | some fd =>
        rw [hfd] at ho
        by_cases h1559 : !forceLegacy &&
            (fd.maxFeePerGas.isSome || fd.maxPriorityFeePerGas.isSome)
        · simp only [h1559] at ho
          exact key _ rfl (Except.ok.inj ho)
        · simp only [h1559] at ho
          cases hgp : fd.gasPrice with
          | none => rw [hgp] at ho; exact key _ rfl (Except.ok.inj ho)
          | some g => rw [hgp] at ho; exact key _ rfl (Except.ok.inj ho)
    | error e =>
      rw [hstep] at ho
      by_cases hrev : isLikelyRevertReason (extractRpcErrorMessage e)
      · simp only [hrev] at ho
        cases ho
      · simp only [hrev] at ho
        cases hfd : provider.feeData with
        | none =>
          rw [hfd] at ho
          exact key _ rfl (Except.ok.inj ho)
        | some fd =>
          rw [hfd] at ho
          by_cases h1559 : !forceLegacy &&
              (fd.maxFeePerGas.isSome || fd.maxPriorityFeePerGas.isSome)
          · simp only [h1559] at ho
            exact key _ rfl (Except.ok.inj ho)
          · simp only [h1559] at ho
            cases hgp : fd.gasPrice with
            | none => rw [hgp] at ho; exact key _ rfl (Except.ok.inj ho)
            | some g => rw [hgp] at ho; exact key _ rfl (Except.ok.inj ho)

/-- C5 witness: `latest = 10`, `pending = 40` (gap 30 > 25) submits
nonce 10, not 40. -/
theorem C5_nonce_gap_witness :
    ∃ o, buildTxOverrides ⟨none, some (10, 40), none⟩ 280000 none false =
      Except.ok o ∧ o.nonce = some 10 := by
  have hEval : buildTxOverrides ⟨none, some (10, 40), none⟩ 280000 none false =
      Except.ok
        { value := none, gasLimit := 280000, nonce := some 10,
          maxFeePerGas := none, maxPriorityFeePerGas := none, gasPrice := none } := by
    decide
  refine ⟨_, hEval, ?_⟩
  have := C5_nonce_gap ⟨none, some (10, 40), none⟩ 280000 none false 10 40 _ rfl hEval
  simpa using this

/-- C6 counterexample: with an absent priority fee and a provider
`gasPrice` of 5 wei, the emitted `maxPriorityFeePerGas` is 5 wei — far
below the 1 gwei the claim promises for a zero-or-absent reported
priority fee. -/
theorem C6_fee_counterexample :
    buildTxOverrides ⟨none, none, some ⟨some 10000000000, none, some 5⟩⟩ 280000 none false =
      Except.ok
        { value := none, gasLimit := 280000, nonce := none,
          maxFeePerGas := some 10000000000, maxPriorityFeePerGas := some 5,
          gasPrice := none } ∧ (5 : Nat) < oneGwei := by
  decide

/-- C6 (amended): in the EIP-1559 branch the emitted fees always satisfy
`maxPriorityFeePerGas ≤ maxFeePerGas`; when the provider reports a
zero-or-absent priority fee, the emitted priority fee falls back to the
provider's nonzero `gasPrice` first, and to 1 gwei only when `gasPrice`
is also zero or absent. -/
theorem C6_fee_consistency (provider : TxProviderEnv) (fallbackGasLimit : Nat)
    (value : Option Int) (fd : FeeData) (o : TxOverrides)
    (hfd : provider.feeData = some fd)
    (h1559 : fd.maxFeePerGas.isSome ∨ fd.maxPriorityFeePerGas.isSome)
    (ho : buildTxOverrides provider fallbackGasLimit value false = Except.ok o) :
    (∃ p f, o.maxPriorityFeePerGas = some p ∧ o.maxFeePerGas = some f ∧ p ≤ f) ∧
    (fd.maxPriorityFeePerGas.getD 0 = 0 →
      o.maxPriorityFeePerGas =
        some (if fd.gasPrice.getD 0 ≠ 0 then fd.gasPrice.getD 0 else oneGwei)) := by
  unfold buildTxOverrides at ho
  rw [hfd] at ho
  have h1559b : (!false && (fd.maxFeePerGas.isSome || fd.maxPriorityFeePerGas.isSome)) = true := by
    rcases h1559 with h | h <;> simp [h]
  have main : ∀ gl : Nat, ∀ nn : Option Nat,
      (Except.ok (feeBranch fd { value := value, gasLimit := gl, nonce := nn }) :
          Except String TxOverrides) = Except.ok o →
      (∃ p f, o.maxPriorityFeePerGas = some p ∧ o.maxFeePerGas = some f ∧ p ≤ f) ∧
      (fd.maxPriorityFeePerGas.getD 0 = 0 →
        o.maxPriorityFeePerGas =
          some (if fd.gasPrice.getD 0 ≠ 0 then fd.gasPrice.getD 0 else oneGwei)) := by
    intro gl nn hinj
    have hX : feeBranch fd { value := value, gasLimit := gl, nonce := nn } = o :=
      Except.ok.inj hinj
    obtain ⟨p, f, hp, hf, hle, hz⟩ :=
      feeBranch_spec fd { value := value, gasLimit := gl, nonce := nn }
    rw [hX] at hp hf
    exact ⟨⟨p, f, hp, hf, hle⟩, fun h0 => by rw [hp, hz h0]⟩
  cases hstep : provider.estimateGas with
  | none =>
    rw [hstep] at ho
    simp only [h1559b] at ho
    exact main _ _ ho
  | some r =>
    cases r with
    | ok E =>
      rw [hstep] at ho
      simp only [h1559b] at ho
      exact main _ _ ho
    | error e =>
      rw [hstep] at ho
      by_cases hrev : isLikelyRevertReason (extractRpcErrorMessage e)
      · simp only [hrev] at ho
        cases ho
      · simp only [hrev] at ho
        simp only [h1559b] at ho
        exact main _ _ ho

/-- C6 witness: a present-but-zero `maxFeePerGas` with absent priority
fee and absent `gasPrice` floors the priority fee at exactly 1 gwei, and
the emitted pair satisfies the fee inequality. -/
theorem C6_fee_consistency_witness :
    ∃ o, buildTxOverrides ⟨none, none, some ⟨some 0, none, none⟩⟩ 280000 none false =
      Except.ok o ∧
      (∃ p f, o.maxPriorityFeePerGas = some p ∧ o.maxFeePerGas = some f ∧ p ≤ f) ∧
      o.maxPriorityFeePerGas = some oneGwei := by
  have hEval : buildTxOverrides ⟨none, none, some ⟨some 0, none, none⟩⟩ 280000 none false =
      Except.ok (TxOverrides.mk none 280000 none (some 2000000000) (some 1000000000)
        none) := by decide
  have h := C6_fee_consistency ⟨none, none, some ⟨some 0, none, none⟩⟩ 280000 none
    ⟨some 0, none, none⟩ _ rfl (Or.inl rfl) hEval
  exact ⟨_, hEval, h.1, by simpa using h.2 rfl⟩

/-- C9: the empty wallet list yields the zero root and an empty proofs
record; a singleton list yields the leaf hash as root and an empty proof
under the lowercased wallet key. -/
theorem C9_merkle_edge_cases :
    buildAllowlistMerkleData [] = (HashZero, []) ∧
    ∀ w : String, buildAllowlistMerkleData [w] =
      (hashAllowlistLeaf w, [(jsToLower w, [])]) := by
  exact ⟨rfl, fun w => rfl⟩

theorem cons_backoff (delay s m : Nat) :
    delay * s :: (List.range m).map (fun j => delay * (s + 1 + j)) =
      (List.range (m + 1)).map fun j => delay * (s + j) := by
  rw [List.range_succ_eq_map]
  simp only [List.map_cons, List.map_map, Nat.add_zero, List.cons.injEq]
  refine ⟨trivial, ?_⟩
  apply List.map_congr_left
  intro j hj
  simp only [Function.comp_apply, Nat.succ_eq_add_one]
  ring

theorem withReadRetryAux_run {α : Type} (attempts delay : Nat) (task : Nat → Except RpcError α)
    (k : Nat) (a : α) (hk : k ≤ attempts) (hok : task k = .ok a)
    (herr : ∀ j, 1 ≤ j → j < k → ∃ e, task j = .error e ∧ isRetryableRpcError e = true) :
    ∀ f s, 1 ≤ s → s ≤ k → s + f = attempts + 1 →
      withReadRetryAux attempts delay task s f =
        ⟨.ok a, k, (List.range (k - s)).map fun j => delay * (s + j)⟩ := by
  intro f
  induction f with
  | zero => intro s hs1 hsk hsf; omega
  | succ f ih =>
    intro s hs1 hsk hsf
    by_cases hsk' : s = k
    · subst hsk'
      simp only [withReadRetryAux, hok]
      simp
    · have hlt : s < k := by omega
      obtain ⟨e, he, hre⟩ := herr s hs1 hlt
      simp only [withReadRetryAux, he]
      have hcond : (decide (s ≥ attempts) || !isRetryableRpcError e) = false := by
        simp [hre]
        omega
      rw [hcond]
      simp only [Bool.false_eq_true, if_false]
      rw [ih (s + 1) (by omega) (by omega) (by omega)]
      dsimp only
      rw [show k - (s + 1) = k - s - 1 from by omega]
      rw [cons_backoff delay s (k - s - 1)]
      rw [show k - s - 1 + 1 = k - s from by omega]

theorem withReadRetryAux_exhaust {α : Type} (attempts delay : Nat)
    (task : Nat → Except RpcError α) (es : Nat → RpcError)
    (herr : ∀ j, 1 ≤ j → j ≤ attempts →
      task j = .error (es j) ∧ isRetryableRpcError (es j) = true) :
    ∀ f s, 1 ≤ s → s ≤ attempts → s + f = attempts + 1 →
      withReadRetryAux attempts delay task s f =
        ⟨.error (es attempts), attempts, (List.range (attempts - s)).map fun j => delay * (s + j)⟩ := by
  intro f
  induction f with
  | zero => intro s hs1 hsk hsf; omega
  | succ f ih =>
    intro s hs1 hsk hsf
    obtain ⟨he, hre⟩ := herr s hs1 hsk
    by_cases hsk' : s = attempts
    · subst hsk'
      simp only [withReadRetryAux, he]
      simp
    · have hlt : s < attempts := by omega
      simp only [withReadRetryAux, he]
      have hcond : (decide (s ≥ attempts) || !isRetryableRpcError (es s)) = false := by
        simp [hre]
        omega
      rw [hcond]
      simp only [Bool.false_eq_true, if_false]
      rw [ih (s + 1) (by omega) (by omega) (by omega)]
      dsimp only
      rw [show attempts - (s + 1) = attempts - s - 1 from by omega]
      rw [cons_backoff delay s (attempts - s - 1)]
      rw [show attempts - s - 1 + 1 = attempts - s from by omega]

/-- C8: read retry policy. -/
theorem C8_read_retry {α : Type} (attempts delay : Nat) (h1 : 1 ≤ attempts)
    (task : Nat → Except RpcError α) :
    (∀ e, task 1 = .error e → isRetryableRpcError e = false →
      withReadRetry attempts delay task = ⟨.error e, 1, []⟩) ∧
    (∀ es : Nat → RpcError,
      (∀ j, 1 ≤ j → j ≤ attempts →
        task j = .error (es j) ∧ isRetryableRpcError (es j) = true) →
      withReadRetry attempts delay task =
        ⟨.error (es attempts), attempts,
          (List.range (attempts - 1)).map fun j => delay * (1 + j)⟩) ∧
    (∀ k a, 1 ≤ k → k ≤ attempts → task k = .ok a →
      (∀ j, 1 ≤ j → j < k → ∃ e, task j = .error e ∧ isRetryableRpcError e = true) →
      withReadRetry attempts delay task =
        ⟨.ok a, k, (List.range (k - 1)).map fun j => delay * (1 + j)⟩) := by
  have hmax : max 1 attempts = attempts := by omega
  refine ⟨?_, ?_, ?_⟩
  · intro e he hnr
    unfold withReadRetry
    rw [hmax]
    obtain ⟨f, hf⟩ : ∃ f, attempts = f + 1 := ⟨attempts - 1, by omega⟩
    rw [hf]
    simp only [withReadRetryAux, he]
    simp [hnr]
  · intro es herr
    unfold withReadRetry
    rw [hmax]
    exact withReadRetryAux_exhaust attempts delay task es herr attempts 1 (by omega) h1 (by omega)
  · intro k a hk1 hk hok herr
    unfold withReadRetry
    rw [hmax]
    exact withReadRetryAux_run attempts delay task k a hk hok herr attempts 1 (by omega) hk1 (by omega)

/-- C8 witness: with 2 configured attempts and a 250 ms delay, a
retryable timeout on attempt 1 followed by success returns the result on
attempt 2 after a single 250 ms backoff. -/
theorem C8_read_retry_witness :
    withReadRetry 2 250
      (fun n => if n = 1 then Except.error { message := some "timeout" }
                else Except.ok (42 : Nat)) =
      ⟨Except.ok 42, 2, [250]⟩ := by
  have herr : ∀ j, 1 ≤ j → j < 2 → ∃ e,
      (fun n => if n = 1 then Except.error { message := some "timeout" }
                else Except.ok (42 : Nat)) j = Except.error e ∧
        isRetryableRpcError e = true := by
    intro j h1j h2j
    have hj : j = 1 := by omega
    subst hj
    exact ⟨_, rfl, by decide⟩
  have h := (C8_read_retry 2 250 (by omega)
    (fun n => if n = 1 then Except.error { message := some "timeout" }
              else Except.ok (42 : Nat))).2.2 2 42 (by omega) (by omega) (by decide) herr
  rw [h]
  rfl

/-- Helper: gas estimation failing with a message the source does not
classify revert-like is swallowed; the overrides keep the fallback gas
limit. -/
theorem buildTxOverrides_estimate_error (provider : TxProviderEnv)
    (fallbackGasLimit : Nat) (value : Option Int) (forceLegacy : Bool) (e : RpcError)
    (hest : provider.estimateGas = some (Except.error e))
    (hrev : isLikelyRevertReason (extractRpcErrorMessage e) = false) :
    ∃ o, buildTxOverrides provider fallbackGasLimit value forceLegacy = Except.ok o ∧
      o.gasLimit = fallbackGasLimit := by
  unfold buildTxOverrides
  rw [hest]
  simp only [hrev, Bool.false_eq_true, if_false]
  cases hfd : provider.feeData with
  | none => exact ⟨_, rfl, rfl⟩
  | some fd =>
    by_cases h1559 : !forceLegacy &&
        (fd.maxFeePerGas.isSome || fd.maxPriorityFeePerGas.isSome)
    · simp only [h1559]
      exact ⟨_, rfl, rfl⟩
    · simp only [h1559]
      cases fd.gasPrice with
      | none => exact ⟨_, rfl, rfl⟩
      | some g => exact ⟨_, rfl, rfl⟩

/-- C7 (amended): an estimation failure whose extracted message matches
the source's revert-like pattern makes the send throw that message; when
the thrown message is not itself classified retryable by the write
classifier, the send fails on attempt 1 with no retry, no delay, and no
transaction submitted.  A failure whose message is not revert-like is
swallowed: the overrides are built with the fallback gas limit, and a
successful submission on attempt 1 goes through with them. -/
theorem C7_simulated_revert (maxAttempts fallbackGasLimit : Nat) (value : Option Int)
    (attemptEnv : Nat → SendAttemptEnv) (e : RpcError)
    (hest : (attemptEnv 1).provider.estimateGas = some (Except.error e)) :
    (isLikelyRevertReason (extractRpcErrorMessage e) = true →
      isRetryableWriteTxError (errorOfMessage
        (if extractRpcErrorMessage e = "" then "Transaction simulation failed"
         else extractRpcErrorMessage e)) = false →
      sendContractTxWithBufferedGas maxAttempts fallbackGasLimit value attemptEnv =
        ⟨Except.error (errorOfMessage
          (if extractRpcErrorMessage e = "" then "Transaction simulation failed"
           else extractRpcErrorMessage e)), 1, [], []⟩) ∧
    (isLikelyRevertReason (extractRpcErrorMessage e) = false →
      ∃ o, buildTxOverrides (attemptEnv 1).provider fallbackGasLimit value false =
          Except.ok o ∧ o.gasLimit = fallbackGasLimit ∧
        ((attemptEnv 1).sendResult = Except.ok () →
          sendContractTxWithBufferedGas maxAttempts fallbackGasLimit value attemptEnv =
            ⟨Except.ok (), 1, [], [o]⟩)) := by
  obtain ⟨f, hf⟩ : ∃ f, max 1 maxAttempts = f + 1 := ⟨max 1 maxAttempts - 1, by omega⟩
  constructor
  · intro hrev hnr
    have hbuild : buildTxOverrides (attemptEnv 1).provider fallbackGasLimit value false =
        Except.error (if extractRpcErrorMessage e = "" then "Transaction simulation failed"
          else extractRpcErrorMessage e) := by
      unfold buildTxOverrides
      rw [hest]
      simp only [hrev, if_true]
    unfold sendContractTxWithBufferedGas
    rw [hf]
    simp only [sendContractTxAux, hbuild]
    simp [hnr]
  · intro hrev
    obtain ⟨o, hbuild, hgas⟩ := buildTxOverrides_estimate_error (attemptEnv 1).provider
      fallbackGasLimit value false e hest hrev
    refine ⟨o, hbuild, hgas, fun hsend => ?_⟩
    unfold sendContractTxWithBufferedGas
    rw [hf]
    simp only [sendContractTxAux, hbuild, hsend]

/-- C7 witness: a simulated revert ("execution reverted: not the owner")
fails the send immediately on attempt 1, with no retry, no delay, and no
submission. -/
theorem C7_simulated_revert_witness :
    sendContractTxWithBufferedGas 3 280000 none
      (fun _ => ⟨⟨some (Except.error (errorOfMessage "execution reverted: not the owner")),
        none, none⟩, Except.ok ()⟩) =
      ⟨Except.error (errorOfMessage "execution reverted: not the owner"), 1, [], []⟩ := by
  have h := (C7_simulated_revert 3 280000 none
    (fun _ => ⟨⟨some (Except.error (errorOfMessage "execution reverted: not the owner")),
      none, none⟩, Except.ok ()⟩)
    (errorOfMessage "execution reverted: not the owner") rfl).1 (by decide) (by decide)
  rw [h]
  rfl

/-- C7 counterexample: the message "frozen" matches the claim's keyword
list, yet the code's `isLikelyRevertReason` (which only knows
"metadata frozen"/"already frozen") rejects it, so the send does not fail:
the estimation error is swallowed and the transaction is submitted with
the fallback gas limit. -/
theorem C7_revert_counterexample :
    specRevertLikePattern "frozen" = true ∧
    isLikelyRevertReason "frozen" = false ∧
    sendContractTxWithBufferedGas 3 280000 none
      (fun _ => ⟨⟨some (Except.error (errorOfMessage "frozen")), none, none⟩, Except.ok ()⟩) =
      ⟨Except.ok (), 1, [],
        [{ value := none, gasLimit := 280000, nonce := none,
           maxFeePerGas := none, maxPriorityFeePerGas := none, gasPrice := none }]⟩ := by
  refine ⟨by decide, by decide, ?_⟩
  decide

theorem buildNext_length : ∀ l : List String,
    (buildNextMerkleLayer l).length = (l.length + 1) / 2
  | [] => by simp [buildNextMerkleLayer]
  | [x] => by simp [buildNextMerkleLayer]
  | x :: y :: rest => by
    simp [buildNextMerkleLayer, buildNext_length rest]
    omega

theorem buildNext_getD_pair : ∀ (l : List String) (j : Nat), 2 * j + 1 < l.length →
    (buildNextMerkleLayer l).getD j "" =
      hashMerklePair (l.getD (2 * j) "") (l.getD (2 * j + 1) "")
  | [], j, h => by simp at h
  | [x], j, h => by simp at h
  | x :: y :: rest, 0, h => by simp [buildNextMerkleLayer]
  | x :: y :: rest, j + 1, h => by
    have ih := buildNext_getD_pair rest j (by simp at h ⊢; omega)
    simp only [buildNextMerkleLayer, List.getD_cons_succ]
    rw [ih]
    have e1 : 2 * (j + 1) = 2 * j + 1 + 1 := by ring
    rw [e1]
    simp only [List.getD_cons_succ]

theorem buildNext_getD_promote : ∀ (l : List String) (j : Nat), 2 * j < l.length →
    l.length ≤ 2 * j + 1 → (buildNextMerkleLayer l).getD j "" = l.getD (2 * j) ""
  | [], j, h, _ => by simp at h
  | [x], 0, h, h2 => by simp [buildNextMerkleLayer]
  | [x], j + 1, h, h2 => by simp at h
  | x :: y :: rest, 0, h, h2 => by simp at h2
  | x :: y :: rest, j + 1, h, h2 => by
    have ih := buildNext_getD_promote rest j (by simp at h ⊢; omega) (by simp at h2 ⊢; omega)
    simp only [buildNextMerkleLayer, List.getD_cons_succ]
    rw [ih]
    have e1 : 2 * (j + 1) = 2 * j + 1 + 1 := by ring
    rw [e1]
    simp only [List.getD_cons_succ]

theorem charListLe_total : ∀ a b : List Char, charListLe a b = false → charListLe b a = true
  | [], b, h => by simp [charListLe] at h
  | a :: as, [], h => by simp [charListLe]
  | a :: as, b :: bs, h => by
    simp only [charListLe] at h ⊢
    by_cases hab : a < b
    · simp [hab] at h
    · by_cases hba : b < a
      · simp [hba]
      · simp [hab, hba] at h ⊢
        exact charListLe_total as bs h

theorem charListLe_antisymm : ∀ a b : List Char,
    charListLe a b = true → charListLe b a = true → a = b
  | [], [], _, _ => rfl
  | [], b :: bs, _, h2 => by simp [charListLe] at h2
  | a :: as, [], h1, _ => by simp [charListLe] at h1
  | a :: as, b :: bs, h1, h2 => by
    simp only [charListLe] at h1 h2
    by_cases hab : a < b
    · have : ¬ b < a := lt_asymm hab
      simp [hab, this] at h2
    · by_cases hba : b < a
      · simp [hab, hba] at h1
      · have hac : a = b := le_antisymm (not_lt.mp hba) (not_lt.mp hab)
        simp [hab, hba] at h1 h2
        rw [hac, charListLe_antisymm as bs h1 h2]

theorem string_data_inj {a b : String} (h : a.data = b.data) : a = b :=
  String.ext h

theorem jsLeString_total {a b : String} (h : jsLeString a b = false) :
    jsLeString b a = true :=
  charListLe_total a.data b.data h

theorem jsLeString_antisymm {a b : String} (h1 : jsLeString a b = true)
    (h2 : jsLeString b a = true) : a = b :=
  string_data_inj (charListLe_antisymm a.data b.data h1 h2)

theorem hexDigitChar_toLower : ∀ n < 16, Char.toLower (hexDigitChar n) = hexDigitChar n := by
  decide

theorem keccak256_bytes_lt : ∀ m, ∀ b ∈ keccak256 m, b < 256 := by
  intro m b hb
  unfold keccak256 at hb
  simp only [List.mem_flatten, List.mem_map] at hb
  obtain ⟨l, ⟨x, hx, rfl⟩, hbl⟩ := hb
  unfold laneToBytes at hbl
  simp only [List.mem_map] at hbl
  obtain ⟨k, hk, rfl⟩ := hbl
  have : (x >>> (8 * k)) &&& 0xff ≤ 0xff := Nat.and_le_right
  omega

theorem bytesToHex_toLower (bs : List Nat) (h : ∀ b ∈ bs, b < 256) :
    jsToLower (bytesToHex bs) = bytesToHex bs := by
  unfold jsToLower bytesToHex
  apply string_data_inj
  simp only [List.map_cons]
  induction bs with
  | nil => simp
  | cons b rest ih =>
    simp only [List.map_cons, List.flatten_cons, byteToHexChars]
    have hb : b < 256 := h b (by simp)
    have h1 : Char.toLower (hexDigitChar (b / 16)) = hexDigitChar (b / 16) :=
      hexDigitChar_toLower _ (by omega)
    have h2 : Char.toLower (hexDigitChar (b % 16)) = hexDigitChar (b % 16) :=
      hexDigitChar_toLower _ (by omega)
    have ih2 := ih (fun x hx => h x (by simp [hx]))
    simp only [List.map_cons, List.map_append] at ih2 ⊢
    simp only [List.cons.injEq] at ih2 ⊢
    refine ⟨by decide, by decide, ?_⟩
    simp [h1, h2]
    simpa using ih2.2.2

theorem hashMerklePair_toLower (a b : String) :
    jsToLower (hashMerklePair a b) = hashMerklePair a b := by
  unfold hashMerklePair
  split
  all_goals exact bytesToHex_toLower _ (keccak256_bytes_lt _)

theorem hashAllowlistLeaf_toLower (w : String) :
    jsToLower (hashAllowlistLeaf w) = hashAllowlistLeaf w :=
  bytesToHex_toLower _ (keccak256_bytes_lt _)

theorem hashMerklePair_comm (a b : String) (ha : jsToLower a = a) (hb : jsToLower b = b) :
    hashMerklePair a b = hashMerklePair b a := by
  unfold hashMerklePair
  rw [ha, hb]
  by_cases hab : jsLeString a b = true
  · by_cases hba : jsLeString b a = true
    · rw [jsLeString_antisymm hab hba]
    · simp [hab, hba]
  · have hba := @jsLeString_total a b (by simpa using hab)
    simp [hab, hba]

theorem buildNext_toLower : ∀ l : List String, (∀ s ∈ l, jsToLower s = s) →
    ∀ s ∈ buildNextMerkleLayer l, jsToLower s = s
  | [], _, s, hs => by simp [buildNextMerkleLayer] at hs
  | [x], h, s, hs => by
    simp only [buildNextMerkleLayer, List.mem_singleton] at hs
    subst hs
    exact h _ (by simp)
  | x :: y :: rest, h, s, hs => by
    simp only [buildNextMerkleLayer, List.mem_cons] at hs
    rcases hs with rfl | hs
    · exact hashMerklePair_toLower x y
    · exact buildNext_toLower rest (fun t ht => h t (by simp [ht])) s hs

theorem buildNext_ne_nil : ∀ l : List String, l ≠ [] → buildNextMerkleLayer l ≠ []
  | [], h => absurd rfl h
  | [x], _ => by simp [buildNextMerkleLayer]
  | x :: y :: rest, _ => by simp [buildNextMerkleLayer]

theorem collapseLayersAux_ne_nil : ∀ (fuel : Nat) (l : List String), l ≠ [] →
    collapseLayersAux fuel l ≠ []
  | 0, l, h => h
  | fuel + 1, l, h => by
    unfold collapseLayersAux
    split
    · exact collapseLayersAux_ne_nil fuel _ (buildNext_ne_nil l h)
    · exact h

theorem getD_mem {l : List String} {i : Nat} (h : i < l.length) : l.getD i "" ∈ l := by
  rw [List.getD_eq_getElem l "" h]
  exact List.getElem_mem h

theorem getD_mem_list {α : Type} {l : List α} {i : Nat} {d : α} (h : i < l.length) :
    l.getD i d ∈ l := by
  rw [List.getD_eq_getElem l d h]
  exact List.getElem_mem h

theorem merkle_fold : ∀ (fuel : Nat) (layer : List String) (i : Nat),
    (∀ s ∈ layer, jsToLower s = s) → i < layer.length → layer.length ≤ fuel →
    (merkleProofAux fuel layer i).foldl hashMerklePair (layer.getD i "") =
      (collapseLayersAux fuel layer).getD 0 ""
  | 0, layer, i, _, hi, hf => by
    have : layer = [] := List.length_eq_zero.mp (by omega)
    subst this
    simp at hi
  | fuel + 1, layer, i, hlow, hi, hf => by
    by_cases hlen : 1 < layer.length
    · have hnextlen : (buildNextMerkleLayer layer).length = (layer.length + 1) / 2 :=
        buildNext_length layer
      have hstep : merkleProofAux (fuel + 1) layer i =
          (let pairIndex := if i % 2 = 0 then i + 1 else i - 1
           if pairIndex < layer.length then [layer.getD pairIndex ""] else []) ++
            merkleProofAux fuel (buildNextMerkleLayer layer) (i / 2) := by
        simp only [merkleProofAux, hlen, if_true]
      have hcol : collapseLayersAux (fuel + 1) layer =
          collapseLayersAux fuel (buildNextMerkleLayer layer) := by
        simp only [collapseLayersAux, hlen, if_true]
      rw [hstep, hcol, List.foldl_append]
      have hihlow := buildNext_toLower layer hlow
      have hihlen : (buildNextMerkleLayer layer).length ≤ fuel := by omega
      have hihidx : i / 2 < (buildNextMerkleLayer layer).length := by omega
      have ih := merkle_fold fuel (buildNextMerkleLayer layer) (i / 2) hihlow hihidx hihlen
      rw [← ih]
      congr 1
      by_cases hpar : i % 2 = 0
      · simp only [hpar, if_true]
        by_cases hnextidx : i + 1 < layer.length
        · simp only [hnextidx, if_true, List.foldl_cons, List.foldl_nil]
          rw [buildNext_getD_pair layer (i / 2) (by omega)]
          congr 1 <;> (congr 1; omega)
        · simp only [hnextidx, if_false, List.foldl_nil]
          rw [buildNext_getD_promote layer (i / 2) (by omega) (by omega)]
          congr 1
          omega
      · have hodd : i % 2 = 1 := by omega
        simp only [hpar, if_false]
        have hprev : i - 1 < layer.length := by omega
        simp only [hprev, if_true, List.foldl_cons, List.foldl_nil]
        rw [buildNext_getD_pair layer (i / 2) (by omega)]
        rw [hashMerklePair_comm (layer.getD i "") (layer.getD (i - 1) "")
          (hlow _ (getD_mem hi)) (hlow _ (getD_mem hprev))]
        congr 1 <;> (congr 1; omega)
    · have hone : layer.length = 1 := by omega
      have hizero : i = 0 := by omega
      subst hizero
      have hproof : merkleProofAux (fuel + 1) layer 0 = [] := by
        simp only [merkleProofAux, hlen, if_false]
      have hcol : collapseLayersAux (fuel + 1) layer = layer := by
        simp only [collapseLayersAux, hlen, if_false]
      rw [hproof, hcol, List.foldl_nil]

theorem foldl_recordSet_fresh {β : Type} : ∀ (entries acc : List (String × β)),
    (∀ p ∈ entries, ∀ q ∈ acc, q.1 ≠ p.1) → (entries.map Prod.fst).Nodup →
    entries.foldl (fun m p => jsRecordSet m p.1 p.2) acc = acc ++ entries
  | [], acc, _, _ => by simp
  | p :: rest, acc, hfresh, hnodup => by
    simp only [List.foldl_cons]
    have hset : jsRecordSet acc p.1 p.2 = acc ++ [p] := by
      unfold jsRecordSet
      have : (acc.any fun q => q.1 = p.1) = false := by
        simp only [List.any_eq_false]
        intro q hq
        simpa using hfresh p (by simp) q hq
      simp [this]
    rw [hset]
    have hrest := foldl_recordSet_fresh rest (acc ++ [p])
      (by
        intro r hr q hq
        simp only [List.mem_append, List.mem_singleton] at hq
        rcases hq with hq | rfl
        · exact hfresh r (by simp [hr]) q hq
        · simp only [List.map_cons, List.nodup_cons] at hnodup
          intro hcontra
          exact hnodup.1 (hcontra ▸ List.mem_map_of_mem Prod.fst hr))
      (by simp only [List.map_cons, List.nodup_cons] at hnodup; exact hnodup.2)
    rw [hrest]
    simp

theorem find_of_nodup_keys {β : Type} : ∀ (entries : List (String × β)) (k : String) (v : β),
    (entries.map Prod.fst).Nodup → (k, v) ∈ entries →
    jsRecordGet entries k = some v
  | [], k, v, _, hmem => by simp at hmem
  | p :: rest, k, v, hnodup, hmem => by
    simp only [List.map_cons, List.nodup_cons] at hnodup
    unfold jsRecordGet
    by_cases hk : p.1 = k
    · have hp : p = (k, v) := by
        rcases List.mem_cons.mp hmem with rfl | htail
        · rfl
        · exact absurd (hk ▸ List.mem_map_of_mem Prod.fst htail) hnodup.1
      subst hp
      simp [List.find?]
    · have htail : (k, v) ∈ rest := by
        rcases List.mem_cons.mp hmem with rfl | htail
        · exact absurd rfl hk
        · exact htail
      have ih := find_of_nodup_keys rest k v hnodup.2 htail
      unfold jsRecordGet at ih
      simp only [List.find?, hk]
      simpa [hk] using ih

/-- C1: Merkle round trip. -/
theorem C1_merkle_round_trip (wallets : List String) (hne : wallets ≠ [])
    (hdist : (wallets.map jsToLower).Nodup) :
    ∀ w ∈ wallets, ∃ proof,
      jsRecordGet (buildAllowlistMerkleData wallets).2 (jsToLower w) = some proof ∧
      proof.foldl hashMerklePair (hashAllowlistLeaf w) =
        (buildAllowlistMerkleData wallets).1 := by
  intro w hw
  obtain ⟨⟨idx, hidx⟩, rfl⟩ := List.mem_iff_get.mp hw
  unfold buildAllowlistMerkleData
  simp only [hne, if_false]
  set leaves := wallets.map hashAllowlistLeaf with hleaves
  have hlenl : leaves.length = wallets.length := by simp [hleaves]
  -- the proofs record is the plain entry list
  have hentries : wallets.enum.foldl
      (fun m p => jsRecordSet m (jsToLower p.2) (merkleProofAux leaves.length leaves p.1)) [] =
      wallets.enum.map fun p =>
        (jsToLower p.2, merkleProofAux leaves.length leaves p.1) := by
    rw [← List.foldl_map
      (fun p : Nat × String =>
        (jsToLower p.2, merkleProofAux leaves.length leaves p.1))
      (fun m p => jsRecordSet m p.1 p.2)]
    rw [foldl_recordSet_fresh _ [] (by simp) ?keys]
    · simp
    case keys =>
      have : (wallets.enum.map fun p =>
          (jsToLower p.2, merkleProofAux leaves.length leaves p.1)).map Prod.fst =
          wallets.map jsToLower := by
        rw [List.map_map]
        have : (Prod.fst ∘ fun p : Nat × String =>
            (jsToLower p.2, merkleProofAux leaves.length leaves p.1)) =
            (jsToLower ∘ Prod.snd) := rfl
        rw [this, ← List.map_map]
        rw [List.enum_map_snd]
      rw [this]
      exact hdist
  rw [hentries]
  refine ⟨merkleProofAux leaves.length leaves idx, ?_, ?_⟩
  · apply find_of_nodup_keys
    · rw [List.map_map]
      have heq : (Prod.fst ∘ fun p : Nat × String =>
          (jsToLower p.2, merkleProofAux leaves.length leaves p.1)) =
          (jsToLower ∘ Prod.snd) := rfl
      rw [heq, ← List.map_map, List.enum_map_snd]
      exact hdist
    · have : (idx, wallets.get ⟨idx, hidx⟩) ∈ wallets.enum := by
        rw [List.mem_iff_get]
        refine ⟨⟨idx, by simp [hidx]⟩, ?_⟩
        simp [List.get_enum]
      exact List.mem_map_of_mem _ this
  · have hlow : ∀ s ∈ leaves, jsToLower s = s := by
      intro s hs
      rw [hleaves] at hs
      obtain ⟨t, _, rfl⟩ := List.mem_map.mp hs
      exact hashAllowlistLeaf_toLower t
    have hidx2 : idx < leaves.length := by omega
    have hfold := merkle_fold leaves.length leaves idx hlow hidx2 (le_refl _)
    have hleaf : leaves.getD idx "" = hashAllowlistLeaf (wallets.get ⟨idx, hidx⟩) := by
      rw [hleaves]
      rw [List.getD_eq_getElem _ "" (by simpa using hidx)]
      simp
    rw [hleaf] at hfold
    rw [hfold]
    have hnn : collapseLayersAux leaves.length leaves ≠ [] := by
      apply collapseLayersAux_ne_nil
      intro hcon
      rw [hcon] at hlenl
      simp at hlenl
      exact hne (List.length_eq_zero.mp hlenl.symm)
    cases hcol : collapseLayersAux leaves.length leaves with
    | nil => exact absurd hcol hnn
    | cons hd tl => simp [List.getD]

theorem jsSetDedupAux_mem : ∀ (l seen : List String) (x : String),
    x ∈ jsSetDedupAux seen l ↔ (x ∈ l ∧ x ∉ seen)
  | [], seen, x => by simp [jsSetDedupAux]
  | a :: l, seen, x => by
    unfold jsSetDedupAux
    cases ha : seen.contains a with
    | true =>
      simp only [if_true]
      rw [jsSetDedupAux_mem l seen x]
      constructor
      · exact fun ⟨h1, h2⟩ => ⟨by simp [h1], h2⟩
      · rintro ⟨h1, h2⟩
        rcases List.mem_cons.mp h1 with rfl | h1
        · exact absurd (by simpa using ha) h2
        · exact ⟨h1, h2⟩
    | false =>
      simp only [Bool.false_eq_true, if_false, List.mem_cons]
      rw [jsSetDedupAux_mem l (a :: seen) x]
      constructor
      · rintro (rfl | ⟨h1, h2⟩)
        · exact ⟨by simp, by simpa using ha⟩
        · exact ⟨by simp [h1], fun hc => h2 (by simp [hc])⟩
      · rintro ⟨h1, h2⟩
        rcases h1 with rfl | h1
        · exact Or.inl rfl
        · by_cases hxa : x = a
          · exact Or.inl hxa
          · exact Or.inr ⟨h1, by simp [hxa, h2]⟩

theorem jsSetDedupAux_nodup : ∀ (l seen : List String),
    (jsSetDedupAux seen l).Nodup
  | [], seen => by simp [jsSetDedupAux]
  | a :: l, seen => by
    unfold jsSetDedupAux
    cases ha : seen.contains a with
    | true =>
      simp only [if_true]
      exact jsSetDedupAux_nodup l seen
    | false =>
      simp only [Bool.false_eq_true, if_false, List.nodup_cons]
      refine ⟨fun hc => ?_, jsSetDedupAux_nodup l (a :: seen)⟩
      have := (jsSetDedupAux_mem l (a :: seen) a).mp hc
      exact this.2 (by simp)

theorem jsSetDedup_mem (l : List String) (x : String) :
    x ∈ jsSetDedup l ↔ x ∈ l := by
  unfold jsSetDedup
  rw [jsSetDedupAux_mem]
  simp

theorem jsSetDedup_nodup (l : List String) : (jsSetDedup l).Nodup :=
  jsSetDedupAux_nodup l []

theorem charListLe_trans : ∀ a b c : List Char,
    charListLe a b = true → charListLe b c = true → charListLe a c = true
  | [], _, _, _, _ => by simp [charListLe]
  | x :: xs, [], _, h1, _ => by simp [charListLe] at h1
  | x :: xs, y :: ys, [], _, h2 => by simp [charListLe] at h2
  | x :: xs, y :: ys, z :: zs, h1, h2 => by
    simp only [charListLe] at h1 h2 ⊢
    by_cases hxy : x < y
    · by_cases hyz : y < z
      · simp [lt_trans hxy hyz]
      · by_cases hzy : z < y
        · simp [hzy, lt_asymm hzy] at h2
        · have hyeq : y = z := le_antisymm (not_lt.mp hzy) (not_lt.mp hyz)
          simp [hyeq ▸ hxy]
    · by_cases hyx : y < x
      · simp [hxy, hyx] at h1
      · have hxeq : x = y := le_antisymm (not_lt.mp hyx) (not_lt.mp hxy)
        subst hxeq
        by_cases hyz : x < z
        · simp [hyz]
        · by_cases hzy : z < x
          · simp [hzy, lt_asymm hzy] at h2
          · simp [hxy, hyx] at h1
            simp [hyz, hzy] at h2 ⊢
            exact charListLe_trans xs ys zs h1 h2

theorem insertSorted_perm {α : Type} (le : α → α → Bool) (a : α) :
    ∀ l : List α, (insertSorted le a l).Perm (a :: l)
  | [] => by simp [insertSorted]
  | b :: l => by
    unfold insertSorted
    split
    · exact List.Perm.refl _
    · exact (List.Perm.cons b (insertSorted_perm le a l)).trans (List.Perm.swap a b l)

theorem jsSortBy_perm {α : Type} (le : α → α → Bool) :
    ∀ l : List α, (jsSortBy le l).Perm l
  | [] => by simp [jsSortBy]
  | a :: l => by
    unfold jsSortBy
    exact (insertSorted_perm le a (jsSortBy le l)).trans
      (List.Perm.cons a (jsSortBy_perm le l))

theorem insertSorted_pairwise {α : Type} (le : α → α → Bool)
    (htotal : ∀ a b, le a b = true ∨ le b a = true)
    (htrans : ∀ a b c, le a b = true → le b c = true → le a c = true) (a : α) :
    ∀ l : List α, l.Pairwise (fun x y => le x y = true) →
      (insertSorted le a l).Pairwise (fun x y => le x y = true)
  | [], _ => by simp [insertSorted]
  | b :: l, hp => by
    unfold insertSorted
    by_cases hab : le a b = true
    · simp only [hab, if_true]
      refine List.Pairwise.cons ?_ hp
      intro c hc
      rcases List.mem_cons.mp hc with rfl | hc
      · exact hab
      · exact htrans a b c hab ((List.pairwise_cons.mp hp).1 c hc)
    · simp only [hab, Bool.false_eq_true, if_false]
      have hba : le b a = true := (htotal a b).resolve_left hab
      obtain ⟨hhead, htail⟩ := List.pairwise_cons.mp hp
      refine List.pairwise_cons.mpr
        ⟨?_, insertSorted_pairwise le htotal htrans a l htail⟩
      intro c hc
      have := (insertSorted_perm le a l).mem_iff.mp hc
      rcases List.mem_cons.mp this with rfl | hcl
      · exact hba
      · exact hhead c hcl

theorem jsSortBy_pairwise {α : Type} (le : α → α → Bool)
    (htotal : ∀ a b, le a b = true ∨ le b a = true)
    (htrans : ∀ a b c, le a b = true → le b c = true → le a c = true) :
    ∀ l : List α, (jsSortBy le l).Pairwise (fun x y => le x y = true)
  | [] => by simp [jsSortBy]
  | a :: l => by
    unfold jsSortBy
    exact insertSorted_pairwise le htotal htrans a (jsSortBy le l)
      (jsSortBy_pairwise le htotal htrans l)

theorem char_toNat_ofNat (n : Nat) (h : n < 55296) : (Char.ofNat n).toNat = n := by
  unfold Char.ofNat
  split
  · rfl
  · rename_i hv
    exact absurd (Or.inl h) hv

theorem char_toNat_inj {a b : Char} (h : a.toNat = b.toNat) : a = b := by
  have h2 := congrArg Char.ofNat h
  rwa [Char.ofNat_toNat, Char.ofNat_toNat] at h2

theorem toLower_toNat (c : Char) : (Char.toLower c).toNat =
    if 65 ≤ c.toNat ∧ c.toNat ≤ 90 then c.toNat + 32 else c.toNat := by
  have he : Char.toLower c =
      if c.toNat ≥ 65 ∧ c.toNat ≤ 90 then Char.ofNat (c.toNat + 32) else c := rfl
  rw [he]
  split
  · rename_i hc
    exact char_toNat_ofNat _ (by omega)
  · rfl

theorem toUpper_toNat (c : Char) : (Char.toUpper c).toNat =
    if 97 ≤ c.toNat ∧ c.toNat ≤ 122 then c.toNat - 32 else c.toNat := by
  have he : Char.toUpper c =
      if c.toNat ≥ 97 ∧ c.toNat ≤ 122 then Char.ofNat (c.toNat - 32) else c := rfl
  rw [he]
  split
  · rename_i hc
    exact char_toNat_ofNat _ (by omega)
  · rfl

theorem toLower_toLower (c : Char) : Char.toLower (Char.toLower c) = Char.toLower c := by
  apply char_toNat_inj
  rw [toLower_toNat, toLower_toNat]
  split_ifs <;> omega

theorem jsToLower_idem (s : String) : jsToLower (jsToLower s) = jsToLower s := by
  unfold jsToLower
  apply string_data_inj
  simp only [List.map_map]
  apply List.map_congr_left
  intro c _
  exact toLower_toLower c

theorem hex_upper_roundtrip (c : Char) (h : isHexDigit c = true) :
    Char.toLower ((Char.toLower c).toUpper) = Char.toLower c := by
  have hr : (48 ≤ c.toNat ∧ c.toNat ≤ 57) ∨ (97 ≤ c.toNat ∧ c.toNat ≤ 102) ∨
      (65 ≤ c.toNat ∧ c.toNat ≤ 70) := by
    unfold isHexDigit at h
    simp only [Bool.or_eq_true, Bool.and_eq_true, decide_eq_true_eq] at h
    tauto
  apply char_toNat_inj
  rw [toLower_toNat, toUpper_toNat, toLower_toNat]
  split_ifs <;> omega

theorem map_getD_range {α : Type} (d : α) : ∀ l : List α,
    (List.range l.length).map (fun i => l.getD i d) = l
  | [] => by simp
  | a :: l => by
    rw [List.length_cons, List.range_succ_eq_map]
    simp only [List.map_cons, List.getD_cons_zero, List.map_map]
    congr 1
    have he : ((fun i => (a :: l).getD i d) ∘ Nat.succ) = fun i => l.getD i d := by
      funext i
      simp [Function.comp, List.getD_cons_succ]
    rw [he]
    exact map_getD_range d l

theorem getD_map_lt {α β : Type} (f : α → β) (l : List α) (i : Nat) (d : α) (d' : β)
    (h : i < l.length) : (l.map f).getD i d' = f (l.getD i d) := by
  rw [List.getD_eq_getElem _ _ (by simpa using h), List.getD_eq_getElem _ _ h]
  simp

theorem getChecksumAddress_factor (s : String) :
    getChecksumAddress (jsToLower s) = getChecksumAddress s := by
  unfold getChecksumAddress
  rw [jsToLower_idem]

theorem isHexAddress_shape {s : String} (h : isHexAddress s = true) :
    ∃ rest : List Char, s.data = '0' :: 'x' :: rest ∧ rest.length = 40 ∧
      ∀ c ∈ rest, isHexDigit c = true := by
  unfold isHexAddress at h
  rcases hs : s.data with _ | ⟨c0, _ | ⟨c1, rest⟩⟩ <;> rw [hs] at h
  · simp at h
  · simp at h
  · simp only [Bool.and_eq_true, decide_eq_true_eq, List.all_eq_true] at h
    obtain ⟨⟨⟨h0, h1⟩, hlen⟩, hhex⟩ := h
    subst h0
    subst h1
    exact ⟨rest, rfl, hlen, hhex⟩

theorem jsToLower_data (s : String) : (jsToLower s).data = s.data.map Char.toLower := rfl

theorem string_mk_data (l : List Char) : (String.mk l).data = l := rfl

set_option maxHeartbeats 1000000 in
theorem getChecksumAddress_toLower (s : String) (h : isHexAddress s = true) :
    jsToLower (getChecksumAddress s) = jsToLower s := by
  obtain ⟨rest, hdata, hlen, hhex⟩ := isHexAddress_shape h
  have hchars : (jsToLower s).data.drop 2 = rest.map Char.toLower := by
    rw [jsToLower_data, hdata]
    rfl
  apply string_data_inj
  rw [jsToLower_data, jsToLower_data, hdata]
  simp only [getChecksumAddress, string_mk_data]
  rw [hchars]
  simp only [List.map_cons, List.map_map]
  congr 1
  congr 1
  generalize keccak256 (List.map (Char.toNat ∘ Char.toLower) rest) = digest

  have hlen2 : (rest.map Char.toLower).length = 40 := by simp [hlen]
  have hrange := map_getD_range ' ' (rest.map Char.toLower)
  rw [hlen2] at hrange
  conv_rhs => rw [← hrange]
  apply List.map_congr_left
  intro i hi
  have hilt : i < rest.length := by rw [hlen]; exact List.mem_range.mp hi
  have hgetd : (rest.map Char.toLower).getD i ' ' = Char.toLower (rest.getD i ' ') :=
    getD_map_lt Char.toLower rest i ' ' ' ' hilt
  simp only [Function.comp_apply]
  rw [hgetd]
  split <;> split
  · exact hex_upper_roundtrip _ (hhex _ (getD_mem_list hilt))
  · exact toLower_toLower _
  · exact hex_upper_roundtrip _ (hhex _ (getD_mem_list hilt))
  · exact toLower_toLower _


theorem getChecksumAddress_lower_inj {u v : String} (hu : isHexAddress u = true)
    (hv : isHexAddress v = true)
    (h : jsToLower (getChecksumAddress u) = jsToLower (getChecksumAddress v)) :
    getChecksumAddress u = getChecksumAddress v := by
  rw [getChecksumAddress_toLower u hu, getChecksumAddress_toLower v hv] at h
  rw [← getChecksumAddress_factor u, ← getChecksumAddress_factor v, h]

theorem walletSortLe_total (a b : String) :
    walletSortLe a b = true ∨ walletSortLe b a = true := by
  unfold walletSortLe
  cases h : jsLeString (jsToLower a) (jsToLower b) with
  | true => exact Or.inl rfl
  | false => exact Or.inr (jsLeString_total h)

theorem walletSortLe_trans (a b c : String) (h1 : walletSortLe a b = true)
    (h2 : walletSortLe b c = true) : walletSortLe a c = true := by
  unfold walletSortLe at h1 h2 ⊢
  exact charListLe_trans _ _ _ h1 h2

theorem walletSortLe_antisymm_lower {a b : String} (h1 : walletSortLe a b = true)
    (h2 : walletSortLe b a = true) : jsToLower a = jsToLower b := by
  unfold walletSortLe at h1 h2
  exact jsLeString_antisymm h1 h2

theorem sorted_perm_eq : ∀ (l₁ l₂ : List String), l₁.Perm l₂ →
    l₁.Pairwise (fun x y => walletSortLe x y = true) →
    l₂.Pairwise (fun x y => walletSortLe x y = true) →
    (∀ x ∈ l₁, ∀ y ∈ l₁, jsToLower x = jsToLower y → x = y) → l₁ = l₂
  | [], l₂, hperm, _, _, _ => hperm.nil_eq
  | a :: t₁, l₂, hperm, hs₁, hs₂, hinj => by
    cases l₂ with
    | nil => exact absurd hperm.symm (by simp)
    | cons b t₂ =>
      have hab : a = b := by
        have hamem : a ∈ b :: t₂ := hperm.mem_iff.mp (by simp)
        have hbmem : b ∈ a :: t₁ := hperm.mem_iff.mpr (by simp)
        rcases List.mem_cons.mp hamem with heq | hat2
        · exact heq
        · rcases List.mem_cons.mp hbmem with heq | hbt1
          · exact heq.symm
          · have h1 : walletSortLe a b = true := (List.pairwise_cons.mp hs₁).1 b hbt1
            have h2 : walletSortLe b a = true := (List.pairwise_cons.mp hs₂).1 a hat2
            exact hinj a (by simp) b (by simp [hbt1])
              (walletSortLe_antisymm_lower h1 h2)
      subst hab
      have htail := hperm.cons_inv
      rw [sorted_perm_eq t₁ t₂ htail (List.pairwise_cons.mp hs₁).2
        (List.pairwise_cons.mp hs₂).2
        (fun x hx y hy h => hinj x (by simp [hx]) y (by simp [hy]) h)]

/-- C2 (amended): the root is order-independent for the lists the
application actually hashes — builds over `normalizeWalletList` outputs:
for every list of syntactically valid hex addresses and every permutation
of it, normalization yields the same list and hence the same Merkle
data. -/
theorem C2_order_independence (W W' : List String)
    (hvalid : ∀ w ∈ W, isHexAddress w = true) (hperm : W.Perm W') :
    buildAllowlistMerkleData (normalizeWalletList W) =
      buildAllowlistMerkleData (normalizeWalletList W') := by
  suffices h : normalizeWalletList W = normalizeWalletList W' by rw [h]
  unfold normalizeWalletList
  apply sorted_perm_eq
  · exact ((jsSortBy_perm _ _).trans
      (((List.perm_ext_iff_of_nodup (jsSetDedup_nodup _) (jsSetDedup_nodup _)).mpr
        (fun x => by
          rw [jsSetDedup_mem, jsSetDedup_mem]
          exact ⟨fun hx => (hperm.map getChecksumAddress).mem_iff.mp hx,
            fun hx => (hperm.map getChecksumAddress).mem_iff.mpr hx⟩)).trans
        (jsSortBy_perm _ _).symm))
  · exact jsSortBy_pairwise _ walletSortLe_total walletSortLe_trans _
  · exact jsSortBy_pairwise _ walletSortLe_total walletSortLe_trans _
  · intro x hx y hy hlow
    have hx2 : x ∈ W.map getChecksumAddress := by
      rw [← jsSetDedup_mem]
      exact (jsSortBy_perm _ _).mem_iff.mp hx
    have hy2 : y ∈ W.map getChecksumAddress := by
      rw [← jsSetDedup_mem]
      exact (jsSortBy_perm _ _).mem_iff.mp hy
    obtain ⟨u, hu, rfl⟩ := List.mem_map.mp hx2
    obtain ⟨v, hv, rfl⟩ := List.mem_map.mp hy2
    exact getChecksumAddress_lower_inj (hvalid u hu) (hvalid v hv) hlow

/-- C1 witness. -/
theorem C1_merkle_round_trip_witness :
    ∃ proof,
      jsRecordGet (buildAllowlistMerkleData
        ["0x1111111111111111111111111111111111111111",
         "0x2222222222222222222222222222222222222222"]).2
        (jsToLower "0x1111111111111111111111111111111111111111") = some proof ∧
      proof.foldl hashMerklePair
        (hashAllowlistLeaf "0x1111111111111111111111111111111111111111") =
        (buildAllowlistMerkleData
          ["0x1111111111111111111111111111111111111111",
           "0x2222222222222222222222222222222222222222"]).1 :=
  C1_merkle_round_trip _ (by decide) (by decide) _ (by decide)

/-- C2 witness. -/
theorem C2_order_independence_witness :
    buildAllowlistMerkleData (normalizeWalletList
      ["0x1111111111111111111111111111111111111111",
       "0x2222222222222222222222222222222222222222"]) =
      buildAllowlistMerkleData (normalizeWalletList
        ["0x2222222222222222222222222222222222222222",
         "0x1111111111111111111111111111111111111111"]) :=
  C2_order_independence _ _ (by decide) (by decide)

set_option maxRecDepth 100000 in
set_option maxHeartbeats 4000000 in
/-- C2 counterexample: `buildAllowlistMerkleData` applied to raw
(unnormalized) wallet lists is NOT order-independent — the sorted-pair
hash only makes each single pairing commutative, not the layer
grouping. -/
theorem C2_order_counterexample :
    List.Perm
      ["0x3333333333333333333333333333333333333333",
       "0x1111111111111111111111111111111111111111",
       "0x2222222222222222222222222222222222222222"]
      ["0x1111111111111111111111111111111111111111",
       "0x2222222222222222222222222222222222222222",
       "0x3333333333333333333333333333333333333333"] ∧
    (buildAllowlistMerkleData
      ["0x1111111111111111111111111111111111111111",
       "0x2222222222222222222222222222222222222222",
       "0x3333333333333333333333333333333333333333"]).1 ≠
    (buildAllowlistMerkleData
      ["0x3333333333333333333333333333333333333333",
       "0x1111111111111111111111111111111111111111",
       "0x2222222222222222222222222222222222222222"]).1 := by
  refine ⟨by decide, ?_⟩
  decide

/-- `jsRecordSet m k v` always contains the pair `(k, v)`. -/
theorem jsRecordSet_self_mem {α : Type} (m : List (String × α)) (k : String) (v : α) :
    (k, v) ∈ jsRecordSet m k v := by
  unfold jsRecordSet
  split
  · next h =>
    rcases List.any_eq_true.mp h with ⟨p, hp, hpk⟩
    have hk := of_decide_eq_true hpk
    exact List.mem_map.mpr ⟨p, hp, by simp [hk]⟩
  · exact List.mem_append_right m (List.mem_singleton.mpr rfl)

theorem upsertStore_cases (phaseId : Int) (root : String) (normalizedTotal : Int)
    (generatedAt mode : String) (normalizedProofs : List (String × List String))
    (env : UpsertEnv) (signatureKey : String) (cleaned : List (String × Int)) :
    upsertRejected (upsertStore phaseId root normalizedTotal generatedAt mode
        normalizedProofs env signatureKey cleaned) ∨
    ((upsertStore phaseId root normalizedTotal generatedAt mode
        normalizedProofs env signatureKey cleaned).status = 200 ∧
      (signatureKey, env.now) ∈ (upsertStore phaseId root normalizedTotal generatedAt mode
        normalizedProofs env signatureKey cleaned).usedSignatures) := by
  unfold upsertStore
  dsimp only
  split <;> (try split) <;>
    first
    | exact Or.inr ⟨rfl, jsRecordSet_self_mem _ _ _⟩
    | exact Or.inl (by simp [upsertRejected, errResult])

theorem upsertReplayOwner_spec (req : UpsertRequest) (env : UpsertEnv)
    (used : List (String × Int)) (phaseId : Int) (entriesLen : Nat)
    (normalizedProofs : List (String × List String)) (recovered : String) :
    upsertRejected (upsertReplayOwner req env used phaseId entriesLen
        normalizedProofs recovered) ∨
    ((upsertReplayOwner req env used phaseId entriesLen
        normalizedProofs recovered).status = 200 ∧
      env.owner = Except.ok recovered ∧
      (jsToLower req.signature, env.now) ∈ (upsertReplayOwner req env used phaseId
        entriesLen normalizedProofs recovered).usedSignatures) := by
  unfold upsertReplayOwner
  dsimp only
  split
  · exact Or.inl (by simp [upsertRejected, errResult])
  split
  · exact Or.inl (by simp [upsertRejected, errResult])
  next ownerAddress howner =>
  split
  · exact Or.inl (by simp [upsertRejected, errResult])
  next hne =>
  have heq : recovered = ownerAddress := by
    by_contra hc
    exact hne hc
  rcases upsertStore_cases phaseId req.root (normalizedTotalOf req.total entriesLen)
      req.generatedAt req.mode normalizedProofs env (jsToLower req.signature)
      (used.filter fun kv => !(env.now - kv.2 > MAX_SIGNATURE_AGE_MS)) with h | ⟨h200, hmem⟩
  · exact Or.inl h
  · exact Or.inr ⟨h200, heq ▸ howner, hmem⟩

theorem upsertVerify_spec (req : UpsertRequest) (env : UpsertEnv)
    (used : List (String × Int)) (phaseId : Int) (entriesLen : Nat)
    (normalizedProofs : List (String × List String)) (timestamp : Int) :
    upsertRejected (upsertVerify req env used phaseId entriesLen
        normalizedProofs timestamp) ∨
    ((upsertVerify req env used phaseId entriesLen
        normalizedProofs timestamp).status = 200 ∧
      jsToLower (buildProofsHash normalizedProofs) = jsToLower req.proofsHash ∧
      (∃ o, (env.verifyMessage
          (buildAllowlistPublishMessage env.contractAddress phaseId req.root
            (normalizedTotalOf req.total entriesLen) (buildProofsHash normalizedProofs)
            timestamp) req.signature).bind getAddress = some o ∧
        env.owner = Except.ok o) ∧
      (jsToLower req.signature, env.now) ∈ (upsertVerify req env used phaseId
        entriesLen normalizedProofs timestamp).usedSignatures) := by
  unfold upsertVerify
  dsimp only
  split
  · exact Or.inl (by simp [upsertRejected, errResult])
  next hhash =>
  split
  · exact Or.inl (by simp [upsertRejected, errResult])
  next recovered hrec =>
  split
  · exact Or.inl (by simp [upsertRejected, errResult])
  next signerAddress hsigner =>
  split
  · exact Or.inl (by simp [upsertRejected, errResult])
  rcases upsertReplayOwner_spec req env used phaseId entriesLen normalizedProofs
      recovered with h | ⟨h200, howner, hmem⟩
  · exact Or.inl h
  · exact Or.inr ⟨h200, by simpa using hhash, ⟨recovered, hrec, howner⟩, hmem⟩

theorem upsertFreshTotal_spec (req : UpsertRequest) (env : UpsertEnv)
    (used : List (String × Int)) (phaseId : Int) (entriesLen : Nat)
    (normalizedProofs : List (String × List String)) (timestamp : Int) :
    upsertRejected (upsertFreshTotal req env used phaseId entriesLen
        normalizedProofs timestamp) ∨
    ((upsertFreshTotal req env used phaseId entriesLen
        normalizedProofs timestamp).status = 200 ∧
      (env.now - timestamp).natAbs ≤ MAX_SIGNATURE_AGE_MS.natAbs ∧
      jsToLower (buildProofsHash normalizedProofs) = jsToLower req.proofsHash ∧
      (∃ o, (env.verifyMessage
          (buildAllowlistPublishMessage env.contractAddress phaseId req.root
            (normalizedTotalOf req.total entriesLen) (buildProofsHash normalizedProofs)
            timestamp) req.signature).bind getAddress = some o ∧
        env.owner = Except.ok o) ∧
      (jsToLower req.signature, env.now) ∈ (upsertFreshTotal req env used phaseId
        entriesLen normalizedProofs timestamp).usedSignatures) := by
  unfold upsertFreshTotal
  split
  · exact Or.inl (by simp [upsertRejected, errResult])
  next hfresh =>
  split
  · exact Or.inl (by simp [upsertRejected, errResult])
  rcases upsertVerify_spec req env used phaseId entriesLen normalizedProofs
      timestamp with h | ⟨h200, hh, ho, hmem⟩
  · exact Or.inl h
  · exact Or.inr ⟨h200, by omega, hh, ho, hmem⟩

theorem upsertAuthFields_spec (req : UpsertRequest) (env : UpsertEnv)
    (used : List (String × Int)) (phaseId : Int) (entriesLen : Nat)
    (normalizedProofs : List (String × List String)) :
    upsertRejected (upsertAuthFields req env used phaseId entriesLen
        normalizedProofs) ∨
    ((upsertAuthFields req env used phaseId entriesLen normalizedProofs).status = 200 ∧
      (∃ t, req.timestamp = some t ∧
        (env.now - t).natAbs ≤ MAX_SIGNATURE_AGE_MS.natAbs ∧
        jsToLower (buildProofsHash normalizedProofs) = jsToLower req.proofsHash ∧
        ∃ o, (env.verifyMessage
            (buildAllowlistPublishMessage env.contractAddress phaseId req.root
              (normalizedTotalOf req.total entriesLen) (buildProofsHash normalizedProofs)
              t) req.signature).bind getAddress = some o ∧
          env.owner = Except.ok o) ∧
      (jsToLower req.signature, env.now) ∈ (upsertAuthFields req env used phaseId
        entriesLen normalizedProofs).usedSignatures) := by
  unfold upsertAuthFields
  split
  · exact Or.inl (by simp [upsertRejected, errResult])
  split
  · exact Or.inl (by simp [upsertRejected, errResult])
  split
  · exact Or.inl (by simp [upsertRejected, errResult])
  next timestamp htime =>
  split
  · exact Or.inl (by simp [upsertRejected, errResult])
  rcases upsertFreshTotal_spec req env used phaseId entriesLen normalizedProofs
      timestamp with h | ⟨h200, hf, hh, ho, hmem⟩
  · exact Or.inl h
  · exact Or.inr ⟨h200, ⟨timestamp, htime, hf, hh, ho⟩, hmem⟩

theorem upsertProofs_spec (req : UpsertRequest) (env : UpsertEnv)
    (used : List (String × Int)) (phaseId : Int)
    (proofEntries : List (String × List String)) :
    upsertRejected (upsertProofs req env used phaseId proofEntries) ∨
    ((upsertProofs req env used phaseId proofEntries).status = 200 ∧
      (∃ np, normalizeProofEntries env.maxProofDepth proofEntries = some np ∧
        ∃ t, req.timestamp = some t ∧
          (env.now - t).natAbs ≤ MAX_SIGNATURE_AGE_MS.natAbs ∧
          jsToLower (buildProofsHash np) = jsToLower req.proofsHash ∧
          ∃ o, (env.verifyMessage
              (buildAllowlistPublishMessage env.contractAddress phaseId req.root
                (normalizedTotalOf req.total proofEntries.length) (buildProofsHash np)
                t) req.signature).bind getAddress = some o ∧
            env.owner = Except.ok o) ∧
      (jsToLower req.signature, env.now) ∈ (upsertProofs req env used phaseId
        proofEntries).usedSignatures) := by
  unfold upsertProofs
  split
  · exact Or.inl (by simp [upsertRejected, errResult])
  split
  · exact Or.inl (by simp [upsertRejected, errResult])
  next normalizedProofs hnorm =>
  rcases upsertAuthFields_spec req env used phaseId proofEntries.length
      normalizedProofs with h | ⟨h200, hrest, hmem⟩
  · exact Or.inl h
  · exact Or.inr ⟨h200, ⟨normalizedProofs, hnorm, hrest⟩, hmem⟩

theorem upsertParse_spec (req : UpsertRequest) (env : UpsertEnv)
    (used : List (String × Int)) :
    upsertRejected (upsertParse req env used) ∨
    ((upsertParse req env used).status = 200 ∧ upsertFresh req env ∧
      upsertHashOk req env ∧ upsertRecoveredOwner req env ∧
      (jsToLower req.signature, env.now) ∈ (upsertParse req env used).usedSignatures) := by
  unfold upsertParse
  split
  · exact Or.inl (by simp [upsertRejected, errResult])
  next phaseId hphase =>
  split
  · exact Or.inl (by simp [upsertRejected, errResult])
  split
  · exact Or.inl (by simp [upsertRejected, errResult])
  split
  · exact Or.inl (by simp [upsertRejected, errResult])
  next proofEntries hproofs =>
  rcases upsertProofs_spec req env used phaseId proofEntries with
    h | ⟨h200, ⟨np, hnorm, t, htime, hf, hh, o, hrec, howner⟩, hmem⟩
  · exact Or.inl h
  · exact Or.inr ⟨h200, ⟨t, htime, hf⟩, ⟨proofEntries, np, hproofs, hnorm, hh⟩,
      ⟨phaseId, t, proofEntries, np, o, hphase, htime, hproofs, hnorm, hrec, howner⟩, hmem⟩

theorem upsertHandler_spec (req : UpsertRequest) (env : UpsertEnv)
    (used : List (String × Int)) :
    upsertRejected (upsertHandler req env used) ∨
    ((upsertHandler req env used).status = 200 ∧ upsertFresh req env ∧
      upsertHashOk req env ∧ upsertRecoveredOwner req env ∧
      (jsToLower req.signature, env.now) ∈ (upsertHandler req env used).usedSignatures) := by
  unfold upsertHandler
  split
  · exact Or.inl (by simp [upsertRejected, errResult])
  split
  · exact Or.inl (by simp [upsertRejected, errResult])
  split
  · exact Or.inl (by simp [upsertRejected, errResult])
  split
  · exact Or.inl (by simp [upsertRejected, errResult])
  split
  · exact Or.inl (by simp [upsertRejected, errResult])
  exact upsertParse_spec req env used

theorem upsertHandler_pre (req : UpsertRequest) (env : UpsertEnv)
    (used : List (String × Int)) (hpre : passesPreReplay req env = true) :
    ∃ (phaseId : Int) (entries np : List (String × List String)) (recovered : String),
      upsertHandler req env used =
        upsertReplayOwner req env used phaseId entries.length np recovered := by
  cases hph : req.phaseId with
  | none => rw [passesPreReplay, hph] at hpre; simp at hpre
  | some phaseId =>
  cases hpf : req.proofs with
  | none => rw [passesPreReplay, hph, hpf] at hpre; simp at hpre
  | some entries =>
  cases hts : req.timestamp with
  | none => rw [passesPreReplay, hph, hpf, hts] at hpre; simp at hpre
  | some timestamp =>
  rw [passesPreReplay, hph, hpf, hts] at hpre
  dsimp only at hpre
  cases hnp : normalizeProofEntries env.maxProofDepth entries with
  | none => rw [hnp] at hpre; simp at hpre
  | some np =>
  rw [hnp] at hpre
  dsimp only at hpre
  cases hrec : (env.verifyMessage
      (buildAllowlistPublishMessage env.contractAddress phaseId req.root
        (normalizedTotalOf req.total entries.length) (buildProofsHash np) timestamp)
      req.signature).bind getAddress with
  | none => rw [hrec] at hpre; simp at hpre
  | some recovered =>
  cases hsgn : getAddress req.signer with
  | none => rw [hrec, hsgn] at hpre; simp at hpre
  | some signerAddress =>
  rw [hrec, hsgn] at hpre
  simp only [Bool.and_eq_true, decide_eq_true_eq, Bool.not_eq_true', and_assoc] at hpre
  obtain ⟨h1, h2, h3, h4, h5, h6, h7, h8, h9, h10, h11, h12, h13, h14, h15⟩ := hpre
  subst h15
  refine ⟨phaseId, entries, np, recovered, ?_⟩
  have e1 : upsertHandler req env used = upsertParse req env used := by
    simp [upsertHandler, h1, h2, h3, h4, h5]
  have e2 : upsertParse req env used = upsertProofs req env used phaseId entries := by
    simp [upsertParse, hph, hpf, h7, show ¬ phaseId < 0 from by omega]
  have e3 : upsertProofs req env used phaseId entries =
      upsertAuthFields req env used phaseId entries.length np := by
    simp [upsertProofs, hnp, show ¬ entries.length > env.maxProofWallets from by omega]
  have e4 : upsertAuthFields req env used phaseId entries.length np =
      upsertFreshTotal req env used phaseId entries.length np timestamp := by
    simp [upsertAuthFields, h9, h10, hts, h11]
  have e5 : upsertFreshTotal req env used phaseId entries.length np timestamp =
      upsertVerify req env used phaseId entries.length np timestamp := by
    simp [upsertFreshTotal, h13,
      show ¬ (env.now - timestamp).natAbs > MAX_SIGNATURE_AGE_MS.natAbs from by omega]
  have e6 : upsertVerify req env used phaseId entries.length np timestamp =
      upsertReplayOwner req env used phaseId entries.length np recovered := by
    simp [upsertVerify, h14, hrec, hsgn]
  rw [e1, e2, e3, e4, e5, e6]

theorem upsertReplayOwner_replay (req : UpsertRequest) (env : UpsertEnv)
    (used : List (String × Int)) (phaseId : Int) (entriesLen : Nat)
    (np : List (String × List String)) (recovered : String)
    (hmem : ∃ t0, (jsToLower req.signature, t0) ∈ used ∧
      ¬ env.now - t0 > MAX_SIGNATURE_AGE_MS) :
    upsertReplayOwner req env used phaseId entriesLen np recovered =
      errResult 409 "Replay detected"
        (used.filter fun kv => !(env.now - kv.2 > MAX_SIGNATURE_AGE_MS)) := by
  obtain ⟨t0, hm, hle⟩ := hmem
  have hany : (used.filter fun kv => !(env.now - kv.2 > MAX_SIGNATURE_AGE_MS)).any
      (fun kv => decide (kv.1 = jsToLower req.signature)) = true :=
    List.any_eq_true.mpr ⟨(jsToLower req.signature, t0),
      List.mem_filter.mpr ⟨hm, by simp [hle]⟩, by simp⟩
  unfold upsertReplayOwner
  dsimp only
  rw [if_pos hany]

/-- C3: the upsert handler stores a proof payload only if the request
timestamp is within five minutes of server time, the request's proofs hash
matches the hash recomputed from the normalized proofs, and the signature
over the canonical publish message recovers to the contract owner; when any
of those three fails, the response is a non-OK error status and neither the
proof file nor the KV store is written. -/
theorem C3_publish_authentication (req : UpsertRequest) (env : UpsertEnv)
    (used : List (String × Int)) :
    ((upsertHandler req env used).wroteFile = true ∨
        (upsertHandler req env used).wroteKv = true →
      upsertFresh req env ∧ upsertHashOk req env ∧ upsertRecoveredOwner req env) ∧
    (¬(upsertFresh req env ∧ upsertHashOk req env ∧ upsertRecoveredOwner req env) →
      (upsertHandler req env used).ok = false ∧
      (upsertHandler req env used).status ≠ 200 ∧
      (upsertHandler req env used).wroteFile = false ∧
      (upsertHandler req env used).wroteKv = false) := by
  rcases upsertHandler_spec req env used with ⟨hok, hst, hwf, hwk⟩ | ⟨h200, hf, hh, ho, _⟩
  · constructor
    · intro hw
      rcases hw with hw | hw
      · rw [hwf] at hw; cases hw
      · rw [hwk] at hw; cases hw
    · intro _
      exact ⟨hok, hst, hwf, hwk⟩
  · exact ⟨fun _ => ⟨hf, hh, ho⟩, fun hn => absurd ⟨hf, hh, ho⟩ hn⟩

theorem C3_publish_authentication_witness :
    ¬(upsertFresh c3Req c3Env ∧ upsertHashOk c3Req c3Env ∧
        upsertRecoveredOwner c3Req c3Env) ∧
    ((upsertHandler c3Req c3Env []).ok = false ∧
      (upsertHandler c3Req c3Env []).status ≠ 200 ∧
      (upsertHandler c3Req c3Env []).wroteFile = false ∧
      (upsertHandler c3Req c3Env []).wroteKv = false) := by
  have hne : ¬(upsertFresh c3Req c3Env ∧ upsertHashOk c3Req c3Env ∧
      upsertRecoveredOwner c3Req c3Env) := by
    rintro ⟨⟨t, ht, hle⟩, -, -⟩
    rw [show c3Req.timestamp = some 0 from rfl] at ht
    cases ht
    revert hle
    decide
  exact ⟨hne, (C3_publish_authentication c3Req c3Env []).2 hne⟩

/-- C10: after a successful publish, re-submitting the same signature
(case-insensitively) within the five-minute signature lifetime is rejected
with HTTP 409 "Replay detected" and performs no writes, for any second
request that passes every check preceding the replay check. -/
theorem C10_replay_rejection (req1 req2 : UpsertRequest) (env1 env2 : UpsertEnv)
    (used : List (String × Int))
    (h1 : (upsertHandler req1 env1 used).status = 200)
    (hsig : jsToLower req2.signature = jsToLower req1.signature)
    (hage : env2.now - env1.now ≤ MAX_SIGNATURE_AGE_MS)
    (hpre : passesPreReplay req2 env2 = true) :
    (upsertHandler req2 env2 (upsertHandler req1 env1 used).usedSignatures).status = 409 ∧
    (upsertHandler req2 env2 (upsertHandler req1 env1 used).usedSignatures).ok = false ∧
    (upsertHandler req2 env2 (upsertHandler req1 env1 used).usedSignatures).error =
      some "Replay detected" ∧
    (upsertHandler req2 env2 (upsertHandler req1 env1 used).usedSignatures).wroteFile =
      false ∧
    (upsertHandler req2 env2 (upsertHandler req1 env1 used).usedSignatures).wroteKv =
      false := by
  have hmem : (jsToLower req1.signature, env1.now) ∈
      (upsertHandler req1 env1 used).usedSignatures := by
    rcases upsertHandler_spec req1 env1 used with ⟨_, hst, _, _⟩ | ⟨_, _, _, _, hm⟩
    · exact absurd h1 hst
    · exact hm
  obtain ⟨phaseId, entries, np, recovered, heq⟩ :=
    upsertHandler_pre req2 env2 (upsertHandler req1 env1 used).usedSignatures hpre
  rw [heq, upsertReplayOwner_replay req2 env2 _ phaseId entries.length np recovered
    ⟨env1.now, by rw [hsig]; exact hmem, by omega⟩]
  simp [errResult]

set_option maxRecDepth 1000000 in
theorem C10_replay_rejection_witness :
    (upsertHandler c10Req c10Env (upsertHandler c10Req c10Env []).usedSignatures).status =
      409 ∧
    (upsertHandler c10Req c10Env (upsertHandler c10Req c10Env []).usedSignatures).ok =
      false ∧
    (upsertHandler c10Req c10Env (upsertHandler c10Req c10Env []).usedSignatures).error =
      some "Replay detected" ∧
    (upsertHandler c10Req c10Env
      (upsertHandler c10Req c10Env []).usedSignatures).wroteFile = false ∧
    (upsertHandler c10Req c10Env
      (upsertHandler c10Req c10Env []).usedSignatures).wroteKv = false :=
  C10_replay_rejection c10Req c10Req c10Env c10Env [] (by rfl) rfl (by decide) (by rfl)


end Launchpad
